import Mathlib

/-!
# Chronologicon Engine — verification of the ingestion pipeline and temporal analysis engine

A shallow embedding of the ChronologiconEngine Node.js service.

Modelling conventions:
* Timestamps are integers counting whole minutes since an arbitrary epoch
  (`TIMESTAMPTZ` values and JavaScript `Date` objects at minute granularity).
  ISO-8601 date strings are abstracted to decimal numerals, so JavaScript
  `new Date(s)` / its `NaN` check is modelled by a decimal parser.
* `uuidv4()` generation is abstracted to a fixed constant string; no theorem
  below exercises fresh-id generation.
* PostgreSQL constraints modelled: the `chk_date_order` CHECK
  (`end_date > start_date`), primary-key uniqueness of `event_id`, and the
  `chk_job_status` CHECK on `ingestion_jobs.status`.  Foreign-key checking of
  `parent_event_id` is not modelled (no claim depends on it).
* The `metadata` JSONB bag is dropped from the event record; it carries no
  behaviour used by the analysed operations.
-/

namespace Chronologicon

/-- A row of the `historical_events` table (see `database_schema.sql`), and
equally a `HistoricalEvent` instance in the JavaScript model layer. -/
structure Event where
  event_id : String
  event_name : String
  description : Option String
  start_date : Int
  end_date : Int
  parent_event_id : Option String
deriving DecidableEq, Repr

/-- The generated column `duration_minutes` of `historical_events`:
`EXTRACT(EPOCH FROM (end_date - start_date)) / 60`, exact at whole-minute
granularity. -/
def Event.duration_minutes (e : Event) : Int :=
  e.end_date - e.start_date

/-- JavaScript whitespace for `String.prototype.trim`. -/
def isJsWhitespace (c : Char) : Bool :=
  c == ' ' || c == '\t' || c == '\n' || c == '\r'

/-- JavaScript `s.trim()`. -/
def jsTrim (s : String) : String :=
  ⟨((s.toList.dropWhile isJsWhitespace).reverse.dropWhile isJsWhitespace).reverse⟩

/-- Splitting step for `s.split('|')`. -/
def jsSplitPipeAux : List Char → List Char → List String
  | [], acc => [⟨acc.reverse⟩]
  | c :: cs, acc =>
    if c == '|' then ⟨acc.reverse⟩ :: jsSplitPipeAux cs []
    else jsSplitPipeAux cs (c :: acc)

/-- JavaScript `s.split('|')` (note `''.split('|') = ['']`). -/
def jsSplitPipe (s : String) : List String :=
  jsSplitPipeAux s.toList []

/-- Accumulating decimal parser; `none` until a digit is seen and on any
non-digit character. -/
def parseNatDigits : List Char → Option Nat → Option Nat
  | [], acc => acc
  | c :: cs, acc =>
    if c.isDigit then
      parseNatDigits cs (some ((acc.getD 0) * 10 + (c.toNat - '0'.toNat)))
    else none

/-- Decimal integer parser over a string. -/
def chronoToInt (s : String) : Option Int :=
  match s.toList with
  | '-' :: rest => (parseNatDigits rest none).map (fun n => -(n : Int))
  | l => (parseNatDigits l none).map (fun n => (n : Int))

/-- JavaScript `s.toUpperCase() === 'NULL'`. -/
def eqIgnoreCaseNULL (s : String) : Bool :=
  match s.toList with
  | [a, b, c, d] =>
    (a == 'N' || a == 'n') && (b == 'U' || b == 'u') &&
    (c == 'L' || c == 'l') && (d == 'L' || d == 'l')
  | _ => false

/-- Lexicographic comparison of character lists (SQL `text`/`uuid` `<`). -/
def strLtAux : List Char → List Char → Bool
  | [], [] => false
  | [], _ :: _ => true
  | _ :: _, [] => false
  | a :: as, b :: bs => if a < b then true else if b < a then false else strLtAux as bs

/-- SQL `e1.event_id < e2.event_id`. -/
def strLt (a b : String) : Bool :=
  strLtAux a.toList b.toList

/-- JavaScript `new Date(s)` followed by the `isNaN(getTime())` validity test,
at the abstraction of this model: a decimal numeral parses to its timestamp,
anything else is an invalid date. -/
def jsDateParse (s : String) : Option Int :=
  chronoToInt s

/-- JavaScript `a >= b` where `b` may be `undefined` (`none`): comparing a
number against `undefined` yields `NaN` and the comparison is `false`. -/
def jsGE (a : Nat) (b : Option Nat) : Bool :=
  match b with
  | some n => a ≥ n
  | none => false

/-- One character class of the UUID regex `[0-9a-f]` with the `i` flag. -/
def isUuidHexChar (c : Char) : Bool :=
  c.isDigit || ('a' ≤ c && c ≤ 'f') || ('A' ≤ c && c ≤ 'F')

/-- `VALIDATION.UUID_REGEX.test(s)` from `src/config/constants.js`:
`/^[0-9a-f]{8}-[0-9a-f]{4}-[0-9a-f]{4}-[0-9a-f]{4}-[0-9a-f]{12}$/i`. -/
def uuidRegexTest (s : String) : Bool :=
  let cs := s.toList
  cs.length == 36 &&
    (List.range 36).all fun i =>
      let c := cs.getD i ' '
      if i == 8 || i == 13 || i == 18 || i == 23 then c == '-' else isUuidHexChar c

/-! ## Constants (`src/config/constants.js`) -/

namespace JOB_STATUS

def PENDING : String := "PENDING"

def PROCESSING : String := "PROCESSING"

def COMPLETED : String := "COMPLETED"

def FAILED : String := "FAILED"

def CANCELLED : String := "CANCELLED"

end JOB_STATUS

namespace VALIDATION

def MAX_EVENT_NAME_LENGTH : Nat := 255

def MAX_DESCRIPTION_LENGTH : Nat := 2000

def MIN_BATCH_SIZE : Nat := 10

def MAX_BATCH_SIZE : Nat := 1000

def DEFAULT_BATCH_SIZE : Nat := 100

end VALIDATION

namespace FILE_PROCESSING

def EXPECTED_FIELDS_COUNT : Nat := 6

def MAX_SAMPLE_LINES : Nat := 10

/-- `FILE_PROCESSING.DEFAULT_BATCH_SIZE` as read by
`FileIngestionService.processLines`.  `constants.js` defines
`DEFAULT_BATCH_SIZE` under `VALIDATION`, not under `FILE_PROCESSING`, so this
property access evaluates to `undefined` (`none`). -/
def DEFAULT_BATCH_SIZE : Option Nat := none

end FILE_PROCESSING

/-- Abstraction of `uuidv4()`: a fixed well-formed UUID string. -/
def uuidv4Stub : String := "ffffffff-ffff-4fff-8fff-ffffffffffff"

/-! ## EventFactory (`src/factories/EventFactory.js`) -/

/-- The plain object returned by `EventFactory.parseFileLine`. -/
structure RawData where
  event_id : String
  event_name : String
  description : Option String
  start_date : String
  end_date : String
  parent_event_id : Option String
deriving DecidableEq, Repr

/-- `EventFactory.parseFileLine(line, lineNumber)`: `none` for a blank line,
otherwise requires exactly 6 pipe-separated fields and trims them. -/
def parseFileLine (line : String) (lineNumber : Nat) : Except String (Option RawData) :=
  if jsTrim line = "" then .ok none
  else
    let parts := jsSplitPipe line
    match parts with
    | [eventId, eventName, startDateStr, endDateStr, parentIdStr, description] =>
      .ok (some
        { event_id := jsTrim eventId
          event_name := jsTrim eventName
          description := if jsTrim description = "" then none else some (jsTrim description)
          start_date := jsTrim startDateStr
          end_date := jsTrim endDateStr
          parent_event_id :=
            if eqIgnoreCaseNULL (jsTrim parentIdStr) then none else some (jsTrim parentIdStr) })
    | _ =>
      let n := parts.length
      .error ("Line " ++ toString lineNumber ++ ": Expected 6 fields, got " ++ toString n)

/-- `EventFactory.validateEventName`. -/
def validateEventName (name : String) : Except String String :=
  if jsTrim name = "" then .error "Missing required fields: event_name"
  else
    let trimmed := jsTrim name
    if trimmed.length > VALIDATION.MAX_EVENT_NAME_LENGTH then
      .error "Event name too long (max 255 characters)"
    else .ok trimmed

/-- `EventFactory.validateDescription`. -/
def validateDescription (description : Option String) : Except String (Option String) :=
  match description with
  | none => .ok none
  | some s =>
    if s = "" then .ok none
    else
      let trimmed := jsTrim s
      if trimmed.length > VALIDATION.MAX_DESCRIPTION_LENGTH then
        .error "Description too long (max 2000 characters)"
      else if trimmed = "" then .ok none
      else .ok (some trimmed)

/-- `EventFactory.validateDate`. -/
def validateDate (date : String) (fieldName : String) : Except String Int :=
  if date = "" then .error ("Missing required fields: " ++ fieldName)
  else
    match jsDateParse date with
    | none => .error ("Invalid date format: " ++ fieldName)
    | some t => .ok t

/-- `EventFactory.validateParentId`. -/
def validateParentId (parentId : Option String) : Option String :=
  match parentId with
  | none => none
  | some s => if s = "" || eqIgnoreCaseNULL (jsTrim s) then none else some (jsTrim s)

/-- `EventFactory.validateAndNormalize(data)`: field-by-field validation in
source order, then the date-order and UUID-format checks. -/
def validateAndNormalize (data : RawData) : Except String Event :=
  match validateEventName data.event_name with
  | .error e => .error e
  | .ok eventName =>
    match validateDescription data.description with
    | .error e => .error e
    | .ok description =>
      match validateDate data.start_date "start_date" with
      | .error e => .error e
      | .ok startDate =>
        match validateDate data.end_date "end_date" with
        | .error e => .error e
        | .ok endDate =>
          if endDate ≤ startDate then
            .error "End date must be after start date"
          else if !uuidRegexTest (if data.event_id = "" then uuidv4Stub else data.event_id) then
            .error "Invalid UUID format: event_id"
          else if (validateParentId data.parent_event_id).any (fun p => !uuidRegexTest p) then
            .error "Invalid UUID format: parent_event_id"
          else
            .ok
              { event_id := if data.event_id = "" then uuidv4Stub else data.event_id
                event_name := eventName
                description := description
                start_date := startDate
                end_date := endDate
                parent_event_id := validateParentId data.parent_event_id }

/-- `EventFactory.createFromFileLine(line, lineNumber)`.  On a blank line,
`parseFileLine` returns `null` and `createFromRawData(null)` crashes with a
`TypeError` when it dereferences `data.event_id`; the crash is modelled as an
error value. -/
def createFromFileLine (line : String) (lineNumber : Nat) : Except String Event :=
  match parseFileLine line lineNumber with
  | .error e => .error e
  | .ok none => .error "TypeError: Cannot read properties of null (reading event_id)"
  | .ok (some data) => validateAndNormalize data

/-! ## The event store (`historical_events` with its constraints) -/

/-- The persisted `historical_events` table, rows in insertion order. -/
structure Store where
  events : List Event
deriving DecidableEq, Repr

/-- The primary keys currently present. -/
def Store.ids (s : Store) : List String :=
  s.events.map Event.event_id

/-- The constraints a new row must satisfy against the existing primary keys:
`chk_date_order` (`end_date > start_date`) and uniqueness of `event_id`. -/
def dbRowOk (ids : List String) (e : Event) : Bool :=
  e.start_date < e.end_date && !(ids.contains e.event_id)

/-- Row-by-row constraint checking of a multi-row `INSERT`, each row seeing
the keys of the rows before it. -/
def batchInsertCheck : List String → List Event → Bool
  | _, [] => true
  | ids, e :: rest => dbRowOk ids e && batchInsertCheck (ids ++ [e.event_id]) rest

/-- `HistoricalEvent.batchInsert(events)`: one atomic multi-row `INSERT` —
either every row commits or the whole statement fails. -/
def batchInsert (s : Store) (events : List Event) : Except String Store :=
  if batchInsertCheck s.ids events then .ok ⟨s.events ++ events⟩
  else .error "constraint violation"

/-- `event.save()`: a single-row `INSERT` with the same constraints. -/
def saveEvent (s : Store) (e : Event) : Except String Store :=
  batchInsert s [e]

/-! ## IngestionJob (`src/models/IngestionJob.js`, `ingestion_jobs` table) -/

/-- An `ingestion_jobs` row as the pipeline mutates it. -/
structure Job where
  job_id : String
  status : String
  total_lines : Nat
  processed_lines : Nat
  error_lines : Nat
  errors : List String
deriving DecidableEq, Repr

/-- A freshly submitted job (`startIngestion` creates it `PENDING` with zero
counters). -/
def newJob (jobId : String) : Job :=
  { job_id := jobId, status := JOB_STATUS.PENDING, total_lines := 0
    processed_lines := 0, error_lines := 0, errors := [] }

/-- `job.addError(message)`: appends the message and bumps `error_lines`. -/
def Job.addError (j : Job) (msg : String) : Job :=
  { j with errors := j.errors ++ [msg], error_lines := j.error_lines + 1 }

/-- The allowed values of `ingestion_jobs.status` under the `chk_job_status`
CHECK constraint of `database_schema.sql`. -/
def chkJobStatusAllowed : List String :=
  ["PENDING", "PROCESSING", "COMPLETED", "FAILED"]

/-- `job.updateProgress({status})`: the `UPDATE` succeeds only if the new
status passes `chk_job_status`. -/
def updateJobStatus (j : Job) (s : String) : Except String Job :=
  if chkJobStatusAllowed.contains s then .ok { j with status := s }
  else .error "violates check constraint chk_job_status"

/-- `FileIngestionService.cancelJob(jobId)` on an active job: a single
`updateProgress({ status: 'CANCELLED' })`. -/
def cancelJob (j : Job) : Except String Job :=
  updateJobStatus j JOB_STATUS.CANCELLED

/-! ## FileIngestionService — batch commit and line processing -/

/-- One iteration of the individual-insert fallback loop of
`FileIngestionService.processBatch`: `event.save()`, counting a success in
`processed_lines` and recording a failure as a job error. -/
def individualInsertStep (p : Store × Job) (ev : Event) : Store × Job :=
  match saveEvent p.1 ev with
  | .ok s' => (s', { p.2 with processed_lines := p.2.processed_lines + 1 })
  | .error msg => (p.1, p.2.addError ("Event " ++ ev.event_id ++ ": " ++ msg))

/-- `FileIngestionService.processBatch(job, events)`: try one bulk commit; on
failure fall back to inserting the records one at a time, recording each
individual failure as a job error. -/
def processBatch (store : Store) (job : Job) (events : List Event) : Store × Job :=
  match batchInsert store events with
  | .ok store' => (store', { job with processed_lines := job.processed_lines + events.length })
  | .error _ => events.foldl individualInsertStep (store, job)

/-- The accumulator state of `processLines`; `flushes` is ghost bookkeeping
recording the size of each committed batch, in order. -/
structure PLState where
  batch : List Event
  store : Store
  job : Job
  flushes : List Nat
deriving DecidableEq, Repr

/-- The `rl.on('line')` handler of `FileIngestionService.processLines`:
parse/validate the line, push the event, and flush once
`batch.length >= batchSize` — where `batchSize` is
`FILE_PROCESSING.DEFAULT_BATCH_SIZE`.  A parse/validation failure is recorded
as a numbered job error and the line is skipped. -/
def processLine (batchSize : Option Nat) (st : PLState) (numbered : Nat × String) : PLState :=
  match createFromFileLine numbered.2 numbered.1 with
  | .ok ev =>
    let batch := st.batch ++ [ev]
    if jsGE batch.length batchSize then
      let r := processBatch st.store st.job batch
      { batch := [], store := r.1, job := r.2, flushes := st.flushes ++ [batch.length] }
    else { st with batch := batch }
  | .error msg =>
    { st with job := st.job.addError ("Line " ++ toString numbered.1 ++ ": " ++ msg) }

/-- `FileIngestionService.processLines(job, filePath)`: fold the handler over
the 1-numbered lines, then commit any remaining batch on `'close'`. -/
def processLines (lines : List String) (store : Store) (job : Job) : PLState :=
  let init : PLState := ⟨[], store, job, []⟩
  let st := (List.enumFrom 1 lines).foldl (processLine FILE_PROCESSING.DEFAULT_BATCH_SIZE) init
  if st.batch.isEmpty then st
  else
    let r := processBatch st.store st.job st.batch
    { batch := [], store := r.1, job := r.2, flushes := st.flushes ++ [st.batch.length] }

/-- `job.complete()` at the end of `processFile`: the terminal status. -/
def completeState (st : PLState) : PLState :=
  { st with job := { st.job with status := JOB_STATUS.COMPLETED } }

/-- `FileIngestionService.processFile(jobId, filePath)` with a readable source
and reachable store: `job.start()` (status `PROCESSING`), the line-count
pre-pass (`total_lines`), `processLines`, then `job.complete()` (status
`COMPLETED`).  The `FAILED` branch fires only on infrastructure exceptions,
which the pure model does not produce; no cancellation flag is consulted
anywhere in the loop. -/
def processFile (job : Job) (store : Store) (lines : List String) : PLState :=
  completeState
    (processLines lines store
      { job with status := JOB_STATUS.PROCESSING, total_lines := lines.length })

/-! ## Pre-ingestion validation (`FileIngestionService.parseLine` / `validateFile`) -/

/-- JavaScript `s.startsWith('#')`. -/
def startsWithHash (s : String) : Bool :=
  match s.toList with
  | c :: _ => c == '#'
  | [] => false

/-- `FileIngestionService.parseLine(line, lineNumber)` — the service's own
parser used only by `validateFile`: blank lines and `#` comments are skipped
(`none`), all other checks throw.  Unlike the factory, fields are not trimmed
before the UUID tests and the parent sentinel comparison is the exact string
`'NULL'`. -/
def serviceParseLine (line : String) (_lineNumber : Nat) : Except String (Option Event) :=
  if jsTrim line = "" || startsWithHash (jsTrim line) then .ok none
  else
    match jsSplitPipe line with
    | [eventId, eventName, startDate, endDate, parentId, description] =>
      if !uuidRegexTest eventId then .error ("Invalid UUID format: " ++ eventId)
      else if parentId ≠ "NULL" && !uuidRegexTest parentId then
        .error ("Invalid parent UUID format: " ++ parentId)
      else
        match jsDateParse startDate with
        | none => .error ("Invalid start date format: " ++ startDate)
        | some startT =>
          match jsDateParse endDate with
          | none => .error ("Invalid end date format: " ++ endDate)
          | some endT =>
            if endT ≤ startT then .error "End date must be after start date"
            else if jsTrim eventName = "" then .error "Event name cannot be empty"
            else
              .ok (some
                { event_id := eventId
                  event_name := eventName
                  description := if description = "" then none else some description
                  start_date := startT
                  end_date := endT
                  parent_event_id := if parentId = "NULL" then none else some parentId })
    | parts =>
      let n := parts.length
      .error ("Expected 6 fields, got " ++ toString n)

/-- The result shape of `FileIngestionService.validateFile`. -/
structure FileValidation where
  isValid : Bool
  errors : List String
  sampledLines : Nat
deriving DecidableEq, Repr

/-- `FileIngestionService.validateFile(filePath, maxSampleLines = 10)`:
parse at most the first `maxSampleLines` lines with `parseLine`, collecting
each failure as a numbered error; the file is valid iff no sampled line
failed. -/
def validateFile (lines : List String) (maxSampleLines : Nat := 10) : FileValidation :=
  let errors := (List.enumFrom 1 (lines.take maxSampleLines)).filterMap fun p =>
    match serviceParseLine p.2 p.1 with
    | .error m => some ("Line " ++ toString p.1 ++ ": " ++ m)
    | .ok _ => none
  { isValid := errors.isEmpty
    errors := errors
    sampledLines := min lines.length (maxSampleLines + 1) }

/-- The gating decision of the `POST /api/events/ingest` controller
(`ingestEvents`): a `ValidationError` is thrown — and no job created — iff
`validateFile` reports the file invalid; otherwise `startIngestion` creates
the job. -/
def ingestCreatesJob (lines : List String) : Bool :=
  (validateFile lines).isValid

/-! ## Temporal analysis (`src/config/queries.js`, `src/models/HistoricalEvent.js`) -/

/-- `start_date >= $1 AND end_date <= $2` — the event lies fully inside the
query range. -/
def inRange (rangeStart rangeEnd : Int) (e : Event) : Bool :=
  rangeStart ≤ e.start_date && e.end_date ≤ rangeEnd

/-- One element of the `FIND_OVERLAPPING_EVENTS` result set after the model
layer's mapping (`overlap_duration_minutes` is whole minutes at the model's
minute granularity, where `Math.round(seconds/60)` is exact). -/
structure OverlapPair where
  e1 : Event
  e2 : Event
  overlap_duration_minutes : Int
deriving DecidableEq, Repr

/-- `e1.start_date < e2.end_date AND e2.start_date < e1.end_date`. -/
def overlapCond (a b : Event) : Bool :=
  a.start_date < b.end_date && b.start_date < a.end_date

/-- `HistoricalEvent.findOverlappingEvents` via `FIND_OVERLAPPING_EVENTS`:
self-join on `e1.event_id < e2.event_id`, both events fully inside the range,
overlap predicate, overlap duration `LEAST(ends) - GREATEST(starts)`,
`ORDER BY overlap_duration_seconds DESC`. -/
def findOverlappingEvents (evs : List Event) (rangeStart rangeEnd : Int) : List OverlapPair :=
  let rows := evs.flatMap fun a =>
    evs.filterMap fun b =>
      if strLt a.event_id b.event_id && overlapCond a b &&
          inRange rangeStart rangeEnd a && inRange rangeStart rangeEnd b then
        some ⟨a, b, min a.end_date b.end_date - max a.start_date b.start_date⟩
      else none
  rows.insertionSort fun p q => q.overlap_duration_minutes ≤ p.overlap_duration_minutes

/-- Events of the range ordered by `start_date` (the window-function ordering
of `FIND_TEMPORAL_GAPS`). -/
def sortedByStart (evs : List Event) : List Event :=
  evs.insertionSort fun a b => a.start_date ≤ b.start_date

/-- A row of the `gaps` CTE of `FIND_TEMPORAL_GAPS`. -/
structure GapRow where
  event_id : String
  gap_start : Int
  gap_end : Int
  gap_duration_minutes : Int
deriving DecidableEq, Repr

/-- Consecutive pairs in order — `(row, LEAD(row))` for each row with a
non-null `LEAD`. -/
def adjacentPairs (l : List Event) : List (Event × Event) :=
  l.zip l.tail

/-- The `gaps` CTE: for each event of the range (ordered by start) paired with
its successor, keep the pair when `next_start_date > end_date`. -/
def gapsOf (evs : List Event) (rangeStart rangeEnd : Int) : List GapRow :=
  (adjacentPairs (sortedByStart (evs.filter (inRange rangeStart rangeEnd)))).filterMap
    fun p =>
      if p.1.end_date < p.2.start_date then
        some ⟨p.1.event_id, p.1.end_date, p.2.start_date, p.2.start_date - p.1.end_date⟩
      else none

/-- `WHERE gap_duration_minutes = (SELECT MAX(...) FROM gaps) LIMIT 1`:
the first row attaining the maximum duration. -/
def maxGapRow (gaps : List GapRow) : Option GapRow :=
  gaps.find? fun g => gaps.all fun h => h.gap_duration_minutes ≤ g.gap_duration_minutes

/-- The object returned by `HistoricalEvent.findTemporalGaps`. -/
structure GapResult where
  startOfGap : Int
  endOfGap : Int
  durationMinutes : Int
  precedingEvent : Option Event
  succeedingEvent : Option Event
deriving DecidableEq, Repr

/-- `HistoricalEvent.findTemporalGaps`: take the maximal gap row (none if no
row), then fetch the preceding event by the row's `event_id`
(`FIND_PRECEDING_EVENT`) and the succeeding event as a range event whose
`start_date` equals the gap end (`FIND_SUCCEEDING_EVENT ... LIMIT 1`). -/
def findTemporalGaps (evs : List Event) (rangeStart rangeEnd : Int) : Option GapResult :=
  match maxGapRow (gapsOf evs rangeStart rangeEnd) with
  | none => none
  | some g =>
    some
      { startOfGap := g.gap_start
        endOfGap := g.gap_end
        durationMinutes := g.gap_duration_minutes
        precedingEvent := evs.find? fun e => e.event_id = g.event_id
        succeedingEvent :=
          (evs.filter fun e =>
            e.start_date = g.gap_end && inRange rangeStart rangeEnd e).head? }

/-! ## Shortest relational path (`FIND_SHORTEST_PATH`) -/

/-- The join condition of the recursive step:
`he.parent_event_id = ep.event_id OR he.event_id = ep.parent_event_id` —
parent/child edges taken in both directions. -/
def undirectedEdge (cur next : Event) : Bool :=
  next.parent_event_id = some cur.event_id || cur.parent_event_id = some next.event_id

/-- A row of the `event_paths` recursive CTE. -/
structure PathRow where
  ev : Event
  path : List String
  total_duration : Int
deriving DecidableEq, Repr

/-- One recursive-step expansion of a CTE row: follow an undirected edge to an
event not yet on the path, provided the path has fewer than 20 nodes
(`NOT he.event_id = ANY(ep.path) AND array_length(ep.path, 1) < 20`). -/
def extendPathRow (evs : List Event) (r : PathRow) : List PathRow :=
  if r.path.length < 20 then
    (evs.filter fun he => undirectedEdge r.ev he && !(r.path.contains he.event_id)).map
      fun he => ⟨he, r.path ++ [he.event_id], r.total_duration + he.duration_minutes⟩
  else []

/-- Generation `n` of the recursive CTE: the base generation selects the
source event with singleton path and its own duration as the running total. -/
def pathGen (evs : List Event) (sourceId : String) : Nat → List PathRow
  | 0 =>
    (evs.filter fun e => e.event_id = sourceId).map
      fun e => ⟨e, [e.event_id], e.duration_minutes⟩
  | n + 1 => (pathGen evs sourceId n).flatMap (extendPathRow evs)

/-- All rows the CTE produces.  Path length is capped at 20 nodes, so
generations beyond 20 are empty and 21 generations are exhaustive. -/
def allPathRows (evs : List Event) (sourceId : String) : List PathRow :=
  (List.range 21).flatMap (pathGen evs sourceId)

/-- `HistoricalEvent.findShortestPath(sourceId, targetId)`: rows reaching the
target, `ORDER BY total_duration ASC LIMIT 1`; `null` when no row reaches it.
The result carries the id path (`GET_PATH_DETAILS` returns the events in path
order) and `total_duration`. -/
def findShortestPath (evs : List Event) (sourceId targetId : String) :
    Option (List String × Int) :=
  let candidates := (allPathRows evs sourceId).filter fun r => r.ev.event_id = targetId
  (candidates.insertionSort fun a b => a.total_duration ≤ b.total_duration).head?.map
    fun r => (r.path, r.total_duration)

/-! ## Hierarchy assembly (`HistoricalEvent.buildHierarchy`) -/

/-- A node of the assembled hierarchy: the event with its `children` list. -/
inductive HNode where
  | mk (ev : Event) (children : List HNode)

/-- The event stored at a node. -/
def HNode.ev : HNode → Event
  | .mk e _ => e

/-- The children of a node. -/
def HNode.children : HNode → List HNode
  | .mk _ cs => cs

mutual

/-- Number of nodes of a hierarchy. -/
def HNode.size : HNode → Nat
  | .mk _ cs => 1 + sizeList cs

/-- Total number of nodes of a list of hierarchies. -/
def sizeList : List HNode → Nat
  | [] => 0
  | n :: ns => n.size + sizeList ns

end

mutual

/-- Preorder listing of the events of a hierarchy. -/
def HNode.nodesList : HNode → List Event
  | .mk e cs => e :: nodesListList cs

/-- Preorder listing over a list of hierarchies. -/
def nodesListList : List HNode → List Event
  | [] => []
  | n :: ns => n.nodesList ++ nodesListList ns

end

/-- Unfolding of the mutable map structure `buildHierarchy` creates: the node
of `e` has as children, in input order, every event whose `parent_event_id`
is `e`'s id (such an event is attached to the map entry of its parent).  The
JavaScript object graph is cyclic when the input's parent relation is; `fuel`
bounds the unfolding and is invisible on the acyclic inputs the theorems
consider. -/
def buildNode (evs : List Event) (e : Event) : Nat → HNode
  | 0 => .mk e []
  | fuel + 1 =>
    .mk e ((evs.filter fun c => c.parent_event_id = some e.event_id).map
      fun c => buildNode evs c fuel)

/-- `HistoricalEvent.buildHierarchy(events)`: `null` on an empty list,
otherwise the map entry of the first event's id after attaching every event
to its parent's children list. -/
def buildHierarchy (events : List Event) : Option HNode :=
  match events with
  | [] => none
  | root :: _ => some (buildNode events root events.length)

/-- The row set of the recursive `GET_TIMELINE_HIERARCHY` query: the event
with the requested id, then descendants level by level (`ORDER BY level`). -/
def timelineLevels (evs : List Event) (frontierIds : List String) : Nat → List Event
  | 0 => []
  | fuel + 1 =>
    let next := evs.filter fun e =>
      match e.parent_event_id with
      | some p => frontierIds.contains p
      | none => false
    match next with
    | [] => []
    | _ => next ++ timelineLevels evs (next.map Event.event_id) fuel

/-- `getTimelineHierarchy`'s row list: root row(s) followed by the recursive
levels. -/
def timelineRows (evs : List Event) (rootEventId : String) : List Event :=
  let base := evs.filter fun e => e.event_id = rootEventId
  base ++ timelineLevels evs (base.map Event.event_id) evs.length

/-- `HistoricalEvent.getTimelineHierarchy(rootEventId)`: run the recursive
query, then assemble with `buildHierarchy`. -/
def getTimelineHierarchy (evs : List Event) (rootEventId : String) : Option HNode :=
  buildHierarchy (timelineRows evs rootEventId)

/-! ## Direct create / update paths (controllers, Joi schemas, `UPDATE`) -/

/-- `POST /api/events`: the body passes `EventFactory.createFromRawData`
(`validateAndNormalize`) and the resulting event is persisted by
`EventRepository.create`, subject to the table constraints. -/
def createEventOp (store : Store) (data : RawData) : Except String Store :=
  match validateAndNormalize data with
  | .error e => .error e
  | .ok ev => saveEvent store ev

/-- A `PUT /api/events/:eventId` body after Joi conversion: exactly the
mutable fields, each optionally present. -/
structure UpdatePatch where
  event_name : Option String := none
  description : Option (Option String) := none
  start_date : Option Int := none
  end_date : Option Int := none
  parent_event_id : Option (Option String) := none
deriving DecidableEq, Repr

/-- The `schemas.updateEvent` Joi validation (`validation.js`): name length
bounds when present, and the custom date-order rule — which fires only when
BOTH dates are present in the patch. -/
def joiUpdateCheck (p : UpdatePatch) : Bool :=
  (match p.event_name with
   | some nm => 1 ≤ nm.length && nm.length ≤ 255
   | none => true) &&
  (match p.start_date, p.end_date with
   | some s, some e => s < e
   | _, _ => true)

/-- Applying the `SET` clause of the `UPDATE` statement to a row. -/
def applyPatch (e : Event) (p : UpdatePatch) : Event :=
  { e with
    event_name := p.event_name.getD e.event_name
    description := p.description.getD e.description
    start_date := p.start_date.getD e.start_date
    end_date := p.end_date.getD e.end_date
    parent_event_id := p.parent_event_id.getD e.parent_event_id }

/-- `PUT /api/events/:eventId`: Joi validation, 404 when the event is absent,
then the `UPDATE ... WHERE event_id = $n` — whose updated row must still pass
`chk_date_order`, else the statement fails and changes nothing. -/
def updateEventOp (store : Store) (eventId : String) (p : UpdatePatch) :
    Except String Store :=
  if !joiUpdateCheck p then .error "Validation failed"
  else
    match store.events.find? (fun e => e.event_id = eventId) with
    | none => .error "Event not found"
    | some e =>
      let e' := applyPatch e p
      if e'.start_date < e'.end_date then
        .ok ⟨store.events.map fun x => if x.event_id = eventId then e' else x⟩
      else .error "violates check constraint chk_date_order"

/-! ## Specification-side vocabulary used by the theorem statements -/

/-- `true` exactly on `Except.error`. -/
def isErr {α : Type} (x : Except String α) : Bool :=
  match x with
  | .error _ => true
  | .ok _ => false

/-- The events of the lines (numbered from `start`) that parse and validate,
in file order. -/
def validEvents (start : Nat) (lines : List String) : List Event :=
  (List.enumFrom start lines).filterMap fun p => (createFromFileLine p.2 p.1).toOption

/-- The numbered error messages the pipeline records for the failing lines,
in file order. -/
def lineErrors (start : Nat) (lines : List String) : List String :=
  (List.enumFrom start lines).filterMap fun p =>
    match createFromFileLine p.2 p.1 with
    | .error m => some ("Line " ++ toString p.1 ++ ": " ++ m)
    | .ok _ => none

/-- Every persisted event satisfies `end_date > start_date`. -/
def StoreOK (s : Store) : Prop :=
  ∀ e ∈ s.events, e.start_date < e.end_date

/-- Two ids are joined by a parent/child edge (in either direction) among the
given events. -/
def IdsAdjacent (evs : List Event) (a b : String) : Prop :=
  ∃ x ∈ evs, ∃ y ∈ evs, x.event_id = a ∧ y.event_id = b ∧ undirectedEdge x y = true

/-- The duration of the unique event carrying an id (0 if absent). -/
def durOfId (evs : List Event) (id : String) : Int :=
  ((evs.find? fun e => e.event_id = id).map Event.duration_minutes).getD 0

/-- Every element after the first names an earlier element as its parent —
the shape of the level-ordered row set of `GET_TIMELINE_HIERARCHY`. -/
def ParentEarlier (evs : List Event) : Prop :=
  ∀ i : Fin evs.length, i.val ≠ 0 →
    ∃ j : Fin evs.length, j.val < i.val ∧
      (evs.get i).parent_event_id = some ((evs.get j).event_id)

/-- The first element's parent (if any) does not occur in the list: the
hierarchy's root is not a child of anything in its own row set. -/
def RootParentFree (evs : List Event) : Prop :=
  match evs with
  | [] => True
  | r :: _ => ∀ p, r.parent_event_id = some p → p ∉ evs.map Event.event_id

/-! ## Concrete scenario data -/

/-- Six well-formed line ids. -/
def uuidNo (i : Nat) : String :=
  "00000000-0000-0000-0000-00000000000" ++ toString i

/-- The 6-line ingestion scenario: line 3 has 5 fields instead of 6. -/
def sixLines : List String :=
  [uuidNo 1 ++ "|Event One|0|60|NULL|first",
   uuidNo 2 ++ "|Event Two|60|120|NULL|second",
   uuidNo 3 ++ "|Event Three|120|180|NULL",
   uuidNo 4 ++ "|Event Four|180|240|NULL|fourth",
   uuidNo 5 ++ "|Event Five|240|300|NULL|fifth",
   uuidNo 6 ++ "|Event Six|300|360|NULL|sixth"]

/-- Parameterised event records for the 100-item batch scenario. -/
def mkBatchEvent (i : Nat) : Event :=
  ⟨"e" ++ toString i, "Event", none, 0, 60, none⟩

/-- A 100-record batch (items 1..100; item 57 is `mkBatchEvent 56`). -/
def batch100 : List Event :=
  (List.range 100).map mkBatchEvent

/-- A store already holding the event whose id item 57 of `batch100`
duplicates. -/
def storeWith56 : Store :=
  ⟨[mkBatchEvent 56]⟩

/-- Scenario event A(09:00–10:00), minutes from midnight. -/
def ovA : Event := ⟨"a", "A", none, 540, 600, none⟩

/-- Scenario event B(09:30–10:30). -/
def ovB : Event := ⟨"b", "B", none, 570, 630, none⟩

/-- Scenario event B'(11:00–12:00) for the temporal-gap scenario. -/
def gapB : Event := ⟨"b", "B", none, 660, 720, none⟩

/-- Chain root A (parent of `chainB`), duration 60. -/
def chainA : Event := ⟨"a", "A", none, 0, 60, none⟩

/-- Chain middle B, child of A, duration 30. -/
def chainB : Event := ⟨"b", "B", none, 0, 30, some "a"⟩

/-- Chain leaf C, child of B, duration 45. -/
def chainC : Event := ⟨"c", "C", none, 0, 45, some "b"⟩

/-- A second root unrelated to `chainA`, for the hierarchy counterexample. -/
def strayZ : Event := ⟨"z", "Z", none, 0, 30, none⟩

/-- How many events of a list the event `x` attaches to as a child — the
events whose id `x`'s `parent_event_id` names. -/
def attachCount (x : Event) (le : List Event) : Nat :=
  le.countP fun ev => decide (x.parent_event_id = some ev.event_id)

/-! ## Theorems -/
theorem enumFrom_cons (n : Nat) (a : String) (l : List String) :
    List.enumFrom n (a :: l) = (n, a) :: List.enumFrom (n + 1) l := rfl

theorem processLine_fold_none (lines : List String) : ∀ (n : Nat) (st : PLState),
    (List.enumFrom n lines).foldl (processLine none) st =
      { batch := st.batch ++ validEvents n lines
        store := st.store
        job := { st.job with
                  errors := st.job.errors ++ lineErrors n lines
                  error_lines := st.job.error_lines + (lineErrors n lines).length }
        flushes := st.flushes } := by
  induction lines with
  | nil => intro n st; simp [validEvents, lineErrors, List.enumFrom]
  | cons l ls ih =>
    intro n st
    rw [enumFrom_cons, List.foldl_cons]
    rcases h : createFromFileLine l n with m | ev
    case error =>
      have hstep : processLine none st (n, l) =
          { st with job := st.job.addError ("Line " ++ toString n ++ ": " ++ m) } := by
        simp [processLine, h]
      rw [hstep, ih]
      simp [validEvents, lineErrors, enumFrom_cons, h, Job.addError, List.append_assoc,
        List.filterMap_cons, Except.toOption, Nat.add_assoc, Nat.add_comm 1]
    case ok =>
      have hstep : processLine none st (n, l) = { st with batch := st.batch ++ [ev] } := by
        simp [processLine, h, jsGE]
      rw [hstep, ih]
      simp [validEvents, lineErrors, enumFrom_cons, h, Except.toOption, List.filterMap_cons,
        List.append_assoc]

theorem processBatch_bulk_ok (store : Store) (job : Job) (events : List Event)
    (h : batchInsertCheck store.ids events = true) :
    processBatch store job events =
      (⟨store.events ++ events⟩,
       { job with processed_lines := job.processed_lines + events.length }) := by
  simp [processBatch, batchInsert, h]

theorem processLines_eq (lines : List String) (store : Store) (job : Job) :
    processLines lines store job =
      (if validEvents 1 lines = [] then
        ⟨[], store,
          { job with errors := job.errors ++ lineErrors 1 lines
                     error_lines := job.error_lines + (lineErrors 1 lines).length }, []⟩
      else
        ⟨[],
         (processBatch store
           { job with errors := job.errors ++ lineErrors 1 lines
                      error_lines := job.error_lines + (lineErrors 1 lines).length }
           (validEvents 1 lines)).1,
         (processBatch store
           { job with errors := job.errors ++ lineErrors 1 lines
                      error_lines := job.error_lines + (lineErrors 1 lines).length }
           (validEvents 1 lines)).2,
         [(validEvents 1 lines).length]⟩) := by
  unfold processLines
  simp only [FILE_PROCESSING.DEFAULT_BATCH_SIZE, processLine_fold_none]
  rcases hv : validEvents 1 lines with _ | ⟨e, es⟩
  · simp [hv]
  · simp [hv]

theorem store_ids_append (s : Store) (evs : List Event) :
    (Store.mk (s.events ++ evs)).ids = s.ids ++ evs.map Event.event_id := by
  simp [Store.ids]

theorem batchInsertCheck_append (ids : List String) (xs ys : List Event) :
    batchInsertCheck ids (xs ++ ys) =
      (batchInsertCheck ids xs && batchInsertCheck (ids ++ xs.map Event.event_id) ys) := by
  induction xs generalizing ids with
  | nil => simp [batchInsertCheck]
  | cons e es ih => simp [batchInsertCheck, ih, List.append_assoc, Bool.and_assoc]

theorem indiv_all_ok (evs : List Event) : ∀ (store : Store) (job : Job),
    batchInsertCheck store.ids evs = true →
    evs.foldl individualInsertStep (store, job) =
      (⟨store.events ++ evs⟩,
       { job with processed_lines := job.processed_lines + evs.length }) := by
  induction evs with
  | nil => intro store job _; simp
  | cons e es ih =>
    intro store job h
    rw [batchInsertCheck] at h
    rw [Bool.and_eq_true] at h
    have hstep : individualInsertStep (store, job) e =
        (⟨store.events ++ [e]⟩, { job with processed_lines := job.processed_lines + 1 }) := by
      simp [individualInsertStep, saveEvent, batchInsert, batchInsertCheck, h.1]
    rw [List.foldl_cons, hstep, ih ⟨store.events ++ [e]⟩ _ (by rw [store_ids_append]; exact h.2)]
    simp [List.append_assoc, Nat.add_assoc, Nat.add_comm 1]

theorem indiv_fail_step (store : Store) (job : Job) (e : Event)
    (h : store.ids.contains e.event_id = true) :
    individualInsertStep (store, job) e =
      (store, job.addError ("Event " ++ e.event_id ++ ": constraint violation")) := by
  have hmem : e.event_id ∈ store.ids := by
    rw [← List.elem_iff]
    exact h
  simp [individualInsertStep, saveEvent, batchInsert, batchInsertCheck, dbRowOk, hmem]
  rw [String.append_assoc]
  congr 1

/-- C9 — the claim fails on the code.  Cancellation is neither cooperative
nor effective: the `chk_job_status` CHECK constraint of `database_schema.sql`
admits only PENDING/PROCESSING/COMPLETED/FAILED, so `cancelJob`'s
`updateProgress({status: 'CANCELLED'})` is rejected by the store; and
`processLines`/`processBatch` consult no cancellation flag, so a job whose
cancellation was requested keeps processing and finishes `COMPLETED`. -/
theorem c9_cancel_rejected_and_ignored :
    (∀ j : Job, cancelJob j = Except.error "violates check constraint chk_job_status") ∧
    JOB_STATUS.CANCELLED ∉ chkJobStatusAllowed ∧
    (∀ (job : Job) (store : Store) (lines : List String),
      (processFile job store lines).job.status = JOB_STATUS.COMPLETED) := by
  refine ⟨fun j => rfl, by decide, fun job store lines => rfl⟩

/-- C7 — the claim fails on the code.  `processLines` reads its batch size
from `FILE_PROCESSING.DEFAULT_BATCH_SIZE`, but `constants.js` defines
`DEFAULT_BATCH_SIZE` under `VALIDATION` (value 100), so the property access
yields `undefined`; the JavaScript comparison `batch.length >= undefined` is
always false, and so the flush-on-batch-full never triggers: every run
commits exactly one batch, at end of stream, whatever its size. -/
theorem c7_flush_never_triggers_on_size :
    FILE_PROCESSING.DEFAULT_BATCH_SIZE = none ∧
    VALIDATION.DEFAULT_BATCH_SIZE = 100 ∧
    (∀ n : Nat, jsGE n FILE_PROCESSING.DEFAULT_BATCH_SIZE = false) ∧
    (∀ (lines : List String) (store : Store) (job : Job),
      (processLines lines store job).flushes =
        if validEvents 1 lines = [] then [] else [(validEvents 1 lines).length]) := by
  refine ⟨rfl, rfl, fun n => rfl, fun lines store job => ?_⟩
  rw [processLines_eq]
  rcases hv : validEvents 1 lines with _ | ⟨e, es⟩
  · simp
  · simp

set_option maxRecDepth 10000

/-- C1 — confirmed.  During ingestion each line is parsed and validated
independently; every failing line is recorded as a numbered error in the
job's ordered error list and skipped while processing continues, and the job
ends COMPLETED with `processed_lines` counting the valid lines,
`error_lines`/`errors` the failing ones, and `total_lines` the line count.
In particular, ingesting the 6-line file in which exactly line 3 has the
wrong field count ends COMPLETED with `processedLines = 5`,
`errorLines = 1`, and one error entry referencing line 3. -/
theorem c1_per_line_fault_isolation :
    (∀ (lines : List String) (store : Store) (job : Job),
      job.processed_lines = 0 → job.error_lines = 0 → job.errors = [] →
      batchInsertCheck store.ids (validEvents 1 lines) = true →
      (processFile job store lines).job.status = JOB_STATUS.COMPLETED ∧
      (processFile job store lines).job.total_lines = lines.length ∧
      (processFile job store lines).job.processed_lines = (validEvents 1 lines).length ∧
      (processFile job store lines).job.error_lines = (lineErrors 1 lines).length ∧
      (processFile job store lines).job.errors = lineErrors 1 lines ∧
      (processFile job store lines).store.events = store.events ++ validEvents 1 lines) ∧
    ((processFile (newJob "job") ⟨[]⟩ sixLines).job.status = JOB_STATUS.COMPLETED ∧
     (processFile (newJob "job") ⟨[]⟩ sixLines).job.processed_lines = 5 ∧
     (processFile (newJob "job") ⟨[]⟩ sixLines).job.error_lines = 1 ∧
     (processFile (newJob "job") ⟨[]⟩ sixLines).job.errors =
       ["Line 3: Line 3: Expected 6 fields, got 5"]) := by
  constructor
  · intro lines store job hp he herr hins
    unfold processFile completeState
    rw [processLines_eq]
    rcases hv : validEvents 1 lines with _ | ⟨e, es⟩
    · simp [hv, hp, he, herr]
    · rw [hv] at hins
      rw [processBatch_bulk_ok _ _ _ hins]
      simp [hv, hp, he, herr]
  · refine ⟨by decide, by decide, by decide, by decide⟩

/-- Witness for C1: the general statement applied to the concrete 6-line
scenario file with an empty store and a fresh job. -/
theorem c1_per_line_fault_isolation_witness :
    (processFile (newJob "w") ⟨[]⟩ sixLines).job.status = JOB_STATUS.COMPLETED ∧
    (processFile (newJob "w") ⟨[]⟩ sixLines).job.total_lines = sixLines.length ∧
    (processFile (newJob "w") ⟨[]⟩ sixLines).job.processed_lines =
      (validEvents 1 sixLines).length ∧
    (processFile (newJob "w") ⟨[]⟩ sixLines).job.error_lines =
      (lineErrors 1 sixLines).length ∧
    (processFile (newJob "w") ⟨[]⟩ sixLines).job.errors = lineErrors 1 sixLines ∧
    (processFile (newJob "w") ⟨[]⟩ sixLines).store.events =
      Store.events ⟨[]⟩ ++ validEvents 1 sixLines :=
  c1_per_line_fault_isolation.1 sixLines ⟨[]⟩ (newJob "w") rfl rfl rfl (by decide)


/-- C2 — confirmed.  When the single bulk commit of a batch fails,
`processBatch` falls back to inserting the records one at a time: with one
record violating uniqueness against the store, every other record still
commits, the one failure is recorded as a job error, and the job still ends
COMPLETED (batch failures never abort processing).  The concrete conjuncts
run the 100-record batch whose item 57 duplicates a persisted id: 99 new
records persist (store grows from 1 to 100 rows), one error is recorded. -/
theorem c2_batch_fallback :
    (∀ (store : Store) (job : Job) (pre post : List Event) (bad : Event),
      batchInsertCheck store.ids (pre ++ post) = true →
      store.ids.contains bad.event_id = true →
      processBatch store job (pre ++ bad :: post) =
        (⟨store.events ++ (pre ++ post)⟩,
         { job with
            processed_lines := job.processed_lines + (pre.length + post.length)
            error_lines := job.error_lines + 1
            errors := job.errors ++ ["Event " ++ bad.event_id ++ ": constraint violation"] })) ∧
    (∀ (job : Job) (store : Store) (lines : List String),
      (processFile job store lines).job.status = JOB_STATUS.COMPLETED) ∧
    ((processBatch storeWith56 (newJob "job") batch100).1.events.length = 100 ∧
     (processBatch storeWith56 (newJob "job") batch100).2.processed_lines = 99 ∧
     (processBatch storeWith56 (newJob "job") batch100).2.error_lines = 1 ∧
     (processBatch storeWith56 (newJob "job") batch100).2.errors =
       ["Event e56: constraint violation"]) := by
  refine ⟨?_, fun job store lines => rfl, by decide, by decide, by decide, by decide⟩
  intro store job pre post bad hgood hbad
  have hga := batchInsertCheck_append store.ids pre post
  rw [hgood] at hga
  have hpre : batchInsertCheck store.ids pre = true := by
    rcases Bool.and_eq_true _ _ |>.mp hga.symm with ⟨h1, _⟩
    exact h1
  have hpost : batchInsertCheck (store.ids ++ pre.map Event.event_id) post = true := by
    rcases Bool.and_eq_true _ _ |>.mp hga.symm with ⟨_, h2⟩
    exact h2
  have hbad2 : (store.ids ++ pre.map Event.event_id).contains bad.event_id = true := by
    have hmem : bad.event_id ∈ store.ids := by
      rw [← List.elem_iff]
      exact hbad
    have : bad.event_id ∈ store.ids ++ pre.map Event.event_id :=
      List.mem_append_left _ hmem
    rw [← List.elem_iff] at this
    exact this
  have hdb : dbRowOk (store.ids ++ pre.map Event.event_id) bad = false := by
    unfold dbRowOk
    rw [hbad2]
    simp
  have hfail : batchInsertCheck store.ids (pre ++ bad :: post) = false := by
    rw [batchInsertCheck_append, batchInsertCheck, hdb]
    simp
  have hfold :
      (pre ++ bad :: post).foldl individualInsertStep (store, job) =
        (⟨store.events ++ (pre ++ post)⟩,
         { job with
            processed_lines := job.processed_lines + (pre.length + post.length)
            error_lines := job.error_lines + 1
            errors := job.errors ++ ["Event " ++ bad.event_id ++ ": constraint violation"] }) := by
    rw [List.foldl_append, indiv_all_ok pre store job hpre, List.foldl_cons]
    have hb : (Store.mk (store.events ++ pre)).ids.contains bad.event_id = true := by
      rw [store_ids_append]
      exact hbad2
    rw [indiv_fail_step _ _ _ hb]
    have hpost2 : batchInsertCheck (Store.mk (store.events ++ pre)).ids post = true := by
      rw [store_ids_append]
      exact hpost
    rw [indiv_all_ok post _ _ hpost2]
    simp [Job.addError, List.append_assoc, Nat.add_assoc]
  unfold processBatch batchInsert
  rw [hfail]
  simp only [Bool.false_eq_true, if_false]
  exact hfold


/-- Witness for C2: the fallback statement applied to a singleton batch
whose only record duplicates the persisted event. -/
theorem c2_batch_fallback_witness :
    processBatch ⟨[mkBatchEvent 0]⟩ (newJob "w") ([] ++ mkBatchEvent 0 :: []) =
      (⟨Store.events ⟨[mkBatchEvent 0]⟩ ++ ([] ++ [])⟩,
       { newJob "w" with
          processed_lines :=
            (newJob "w").processed_lines + (List.length ([] : List Event) + List.length ([] : List Event))
          error_lines := (newJob "w").error_lines + 1
          errors :=
            (newJob "w").errors ++
              ["Event " ++ (mkBatchEvent 0).event_id ++ ": constraint violation"] }) :=
  c2_batch_fallback.1 ⟨[mkBatchEvent 0]⟩ (newJob "w") [] [] (mkBatchEvent 0)
    (by decide) (by decide)

/-- C10 — confirmed.  The ingest endpoint's pre-validation parses at most
the first 10 lines: the request is rejected (no job created) iff some
sampled line fails `parseLine`, and the reported errors depend only on the
first 10 lines, so a malformed line after line 10 never prevents ingestion
from starting. -/
theorem c10_ingest_gate :
    ∀ lines : List String,
      ((ingestCreatesJob lines = false) ↔
        ∃ p ∈ List.enumFrom 1 (lines.take 10), isErr (serviceParseLine p.2 p.1) = true) ∧
      (validateFile lines).errors = (validateFile (lines.take 10)).errors := by
  intro lines
  constructor
  · rw [ingestCreatesJob, validateFile]
    dsimp only
    rw [List.isEmpty_eq_false_iff_exists_mem]
    constructor
    · rintro ⟨x, hx⟩
      rcases List.mem_filterMap.mp hx with ⟨p, hp, hf⟩
      refine ⟨p, hp, ?_⟩
      rcases he : serviceParseLine p.2 p.1 with m | v
      · rfl
      · rw [he] at hf
        simp at hf
    · rintro ⟨p, hp, herr⟩
      rcases he : serviceParseLine p.2 p.1 with m | v
      · exact ⟨_, List.mem_filterMap.mpr ⟨p, hp, by rw [he]⟩⟩
      · rw [he] at herr
        simp [isErr] at herr
  · rw [validateFile, validateFile]
    simp [List.take_take]


theorem validateAndNormalize_ok (d : RawData) (ev : Event)
    (h : validateAndNormalize d = .ok ev) :
    ev.start_date < ev.end_date ∧
    jsDateParse d.start_date = some ev.start_date ∧
    jsDateParse d.end_date = some ev.end_date := by
  unfold validateAndNormalize at h
  rcases hn : validateEventName d.event_name with m | nm
  all_goals rw [hn] at h
  · simp at h
  rcases hd : validateDescription d.description with m | ds
  all_goals rw [hd] at h
  · simp at h
  rcases hs : validateDate d.start_date "start_date" with m | ts
  all_goals rw [hs] at h
  · simp at h
  rcases he2 : validateDate d.end_date "end_date" with m | te
  all_goals rw [he2] at h
  · simp at h
  dsimp only at h
  by_cases hord : te ≤ ts
  · rw [if_pos hord] at h
    simp at h
  · rw [if_neg hord] at h
    have hev : ev.start_date = ts ∧ ev.end_date = te := by
      by_cases hu1 : (!uuidRegexTest (if d.event_id = "" then uuidv4Stub else d.event_id)) = true
      · rw [if_pos hu1] at h
        simp at h
      · rw [if_neg hu1] at h
        by_cases hu2 : ((validateParentId d.parent_event_id).any fun p => !uuidRegexTest p) = true
        · rw [if_pos hu2] at h
          simp at h
        · rw [if_neg hu2] at h
          rw [Except.ok.injEq] at h
          rw [← h]
          exact ⟨rfl, rfl⟩
    have hjs : jsDateParse d.start_date = some ts ∧ jsDateParse d.end_date = some te := by
      constructor
      · unfold validateDate at hs
        by_cases hne : d.start_date = ""
        · rw [if_pos hne] at hs
          simp at hs
        · rw [if_neg hne] at hs
          rcases hjp : jsDateParse d.start_date with _ | t
          all_goals rw [hjp] at hs
          · simp at hs
          · simp at hs
            rw [hs]
      · unfold validateDate at he2
        by_cases hne : d.end_date = ""
        · rw [if_pos hne] at he2
          simp at he2
        · rw [if_neg hne] at he2
          rcases hjp : jsDateParse d.end_date with _ | t
          all_goals rw [hjp] at he2
          · simp at he2
          · simp at he2
            rw [he2]
    refine ⟨?_, ?_, ?_⟩
    · rw [hev.1, hev.2]
      omega
    · rw [hev.1]
      exact hjs.1
    · rw [hev.2]
      exact hjs.2
theorem batchInsert_ok_iff (s : Store) (evs : List Event) (s' : Store)
    (h : batchInsert s evs = .ok s') :
    s' = ⟨s.events ++ evs⟩ ∧ batchInsertCheck s.ids evs = true := by
  unfold batchInsert at h
  by_cases hc : batchInsertCheck s.ids evs = true
  · rw [if_pos hc] at h
    rw [Except.ok.injEq] at h
    exact ⟨h.symm, hc⟩
  · rw [if_neg hc] at h
    simp at h

theorem batchInsertCheck_dates (evs : List Event) : ∀ ids, batchInsertCheck ids evs = true →
    ∀ e ∈ evs, e.start_date < e.end_date := by
  induction evs with
  | nil =>
    intro ids _ e he
    simp at he
  | cons x xs ih =>
    intro ids h e he
    rw [batchInsertCheck, Bool.and_eq_true] at h
    rcases List.mem_cons.mp he with rfl | he2
    · have hx := h.1
      unfold dbRowOk at hx
      rw [Bool.and_eq_true] at hx
      exact of_decide_eq_true hx.1
    · exact ih _ h.2 e he2

theorem storeOK_append (s : Store) (evs : List Event) (hs : StoreOK s)
    (hevs : ∀ e ∈ evs, e.start_date < e.end_date) : StoreOK ⟨s.events ++ evs⟩ := by
  intro e he
  rcases List.mem_append.mp he with h1 | h2
  · exact hs e h1
  · exact hevs e h2

theorem indivStep_storeOK (p : Store × Job) (e : Event) (h : StoreOK p.1) :
    StoreOK (individualInsertStep p e).1 := by
  unfold individualInsertStep
  rcases hsv : saveEvent p.1 e with m | s'
  · simp only [hsv]
    exact h
  · simp only [hsv]
    unfold saveEvent at hsv
    rcases batchInsert_ok_iff _ _ _ hsv with ⟨rfl, hc⟩
    exact storeOK_append _ _ h (batchInsertCheck_dates _ _ hc)

theorem foldl_indiv_storeOK (evs : List Event) :
    ∀ p : Store × Job, StoreOK p.1 → StoreOK ((evs.foldl individualInsertStep p).1) := by
  induction evs with
  | nil => intro p h; exact h
  | cons e es ih =>
    intro p h
    rw [List.foldl_cons]
    exact ih _ (indivStep_storeOK p e h)

theorem processBatch_storeOK (store : Store) (job : Job) (evs : List Event)
    (h : StoreOK store) : StoreOK (processBatch store job evs).1 := by
  unfold processBatch
  rcases hb : batchInsert store evs with m | s'
  · simp only [hb]
    exact foldl_indiv_storeOK evs (store, job) h
  · simp only [hb]
    rcases batchInsert_ok_iff _ _ _ hb with ⟨rfl, hc⟩
    exact storeOK_append _ _ h (batchInsertCheck_dates _ _ hc)

theorem processFile_storeOK (job : Job) (store : Store) (lines : List String)
    (h : StoreOK store) : StoreOK (processFile job store lines).store := by
  unfold processFile completeState
  rw [processLines_eq]
  rcases hv : validEvents 1 lines with _ | ⟨e, es⟩
  · simp only [if_pos rfl]
    exact h
  · simp only [List.cons_ne_self]
    rw [if_neg (by simp)]
    exact processBatch_storeOK _ _ _ h

theorem createEventOp_reject (store : Store) (d : RawData) (ts te : Int)
    (hts : jsDateParse d.start_date = some ts) (hte : jsDateParse d.end_date = some te)
    (hord : te ≤ ts) : isErr (createEventOp store d) = true := by
  unfold createEventOp
  rcases hv : validateAndNormalize d with m | ev
  · rfl
  · exfalso
    rcases validateAndNormalize_ok d ev hv with ⟨hlt, hs, he⟩
    rw [hts, Option.some.injEq] at hs
    rw [hte, Option.some.injEq] at he
    omega

theorem createEventOp_ok_storeOK (store : Store) (d : RawData) (s' : Store)
    (hs : StoreOK store) (h : createEventOp store d = .ok s') : StoreOK s' := by
  unfold createEventOp at h
  rcases hv : validateAndNormalize d with m | ev
  all_goals rw [hv] at h
  · simp at h
  · unfold saveEvent at h
    rcases batchInsert_ok_iff _ _ _ h with ⟨rfl, hc⟩
    exact storeOK_append _ _ hs (batchInsertCheck_dates _ _ hc)

theorem updateEventOp_reject (store : Store) (id : String) (p : UpdatePatch) (e : Event)
    (hf : store.events.find? (fun x => x.event_id = id) = some e)
    (hbad : (applyPatch e p).end_date ≤ (applyPatch e p).start_date) :
    isErr (updateEventOp store id p) = true := by
  unfold updateEventOp
  by_cases hj : (!joiUpdateCheck p) = true
  · rw [if_pos hj]
    rfl
  · rw [if_neg hj, hf]
    dsimp only
    rw [if_neg (by omega)]
    rfl

theorem updateEventOp_ok_storeOK (store : Store) (id : String) (p : UpdatePatch) (s' : Store)
    (hs : StoreOK store) (h : updateEventOp store id p = .ok s') : StoreOK s' := by
  unfold updateEventOp at h
  by_cases hj : (!joiUpdateCheck p) = true
  · rw [if_pos hj] at h
    simp at h
  · rw [if_neg hj] at h
    rcases hf : store.events.find? (fun x => x.event_id = id) with _ | e
    all_goals rw [hf] at h
    · simp at h
    · dsimp only at h
      by_cases hd : (applyPatch e p).start_date < (applyPatch e p).end_date
      · rw [if_pos hd, Except.ok.injEq] at h
        rw [← h]
        intro x hx
        rcases List.mem_map.mp hx with ⟨y, hy, hxy⟩
        by_cases hid : y.event_id = id
        · rw [if_pos hid] at hxy
          rw [← hxy]
          exact hd
        · rw [if_neg hid] at hxy
          rw [← hxy]
          exact hs y hy
      · rw [if_neg hd] at h
        simp at h
/-- C8 — confirmed.  Every persisted event satisfies
`end_date > start_date`: a create whose parsed dates satisfy
`end ≤ start` is rejected by `validateAndNormalize`; successful creates,
ingestion runs, and updates all preserve the store invariant (the `UPDATE`
path is guarded by the `chk_date_order` CHECK even when the Joi patch rule
is skipped because only one date is present); and a patch that would make
the stored row violate the invariant is rejected, the failed statement
leaving the store unchanged. -/
theorem c8_end_after_start :
    (∀ (store : Store) (d : RawData) (ts te : Int),
      jsDateParse d.start_date = some ts → jsDateParse d.end_date = some te → te ≤ ts →
      isErr (createEventOp store d) = true) ∧
    (∀ (store : Store) (d : RawData) (s' : Store),
      StoreOK store → createEventOp store d = .ok s' → StoreOK s') ∧
    (∀ (job : Job) (store : Store) (lines : List String),
      StoreOK store → StoreOK (processFile job store lines).store) ∧
    (∀ (store : Store) (id : String) (p : UpdatePatch) (e : Event),
      store.events.find? (fun x => x.event_id = id) = some e →
      (applyPatch e p).end_date ≤ (applyPatch e p).start_date →
      isErr (updateEventOp store id p) = true) ∧
    (∀ (store : Store) (id : String) (p : UpdatePatch) (s' : Store),
      StoreOK store → updateEventOp store id p = .ok s' → StoreOK s') :=
  ⟨fun store d ts te hts hte hord => createEventOp_reject store d ts te hts hte hord,
   fun store d s' hs h => createEventOp_ok_storeOK store d s' hs h,
   fun job store lines h => processFile_storeOK job store lines h,
   fun store id p e hf hbad => updateEventOp_reject store id p e hf hbad,
   fun store id p s' hs h => updateEventOp_ok_storeOK store id p s' hs h⟩

/-- Witness for C8: a create with `end = start` and an end-date-only patch
that would move `end_date` before `start_date` are both rejected. -/
theorem c8_end_after_start_witness :
    isErr (createEventOp ⟨[]⟩ ⟨uuidNo 1, "N", none, "5", "5", none⟩) = true ∧
    isErr (updateEventOp ⟨[chainA]⟩ "a" { end_date := some (-5) }) = true :=
  ⟨c8_end_after_start.1 ⟨[]⟩ ⟨uuidNo 1, "N", none, "5", "5", none⟩ 5 5
     (by decide) (by decide) (by omega),
   c8_end_after_start.2.2.2.1 ⟨[chainA]⟩ "a" { end_date := some (-5) } chainA
     (by decide) (by decide)⟩
theorem overlap_row_mem (evs : List Event) (rS rE : Int) (p : OverlapPair) :
    p ∈ findOverlappingEvents evs rS rE ↔
      ∃ a ∈ evs, ∃ b ∈ evs,
        (strLt a.event_id b.event_id && overlapCond a b &&
          inRange rS rE a && inRange rS rE b) = true ∧
        p = ⟨a, b, min a.end_date b.end_date - max a.start_date b.start_date⟩ := by
  unfold findOverlappingEvents
  rw [List.mem_insertionSort, List.mem_flatMap]
  constructor
  · rintro ⟨a, ha, hb⟩
    rcases List.mem_filterMap.mp hb with ⟨b, hbm, hf⟩
    by_cases hc : (strLt a.event_id b.event_id && overlapCond a b &&
        inRange rS rE a && inRange rS rE b) = true
    · rw [if_pos hc, Option.some.injEq] at hf
      exact ⟨a, ha, b, hbm, hc, hf.symm⟩
    · rw [if_neg hc] at hf
      simp at hf
  · rintro ⟨a, ha, b, hb, hc, rfl⟩
    refine ⟨a, ha, List.mem_filterMap.mpr ⟨b, hb, ?_⟩⟩
    rw [if_pos hc]

/-- C3 — confirmed.  `findOverlappingEvents` restricted to events fully
inside the query range reports each unordered pair at most once (all rows
have `id1 < id2`, and rows with equal id pairs coincide), contains a pair iff
`startA < endB` and `startB < endA` with both events in range, reports
`overlap_duration_minutes = min(endA,endB) − max(startA,startB)`, and is
sorted by overlap duration descending.  For A(09:00–10:00) and
B(09:30–10:30) it returns exactly one pair with duration 30. -/
theorem c3_overlapping_events :
    (∀ (evs : List Event) (rS rE : Int),
      ((evs.map Event.event_id).Nodup →
        (∀ p ∈ findOverlappingEvents evs rS rE,
          ∀ q ∈ findOverlappingEvents evs rS rE,
            p.e1.event_id = q.e1.event_id → p.e2.event_id = q.e2.event_id → p = q)) ∧
      (∀ p ∈ findOverlappingEvents evs rS rE,
          p.e1 ∈ evs ∧ p.e2 ∈ evs ∧
          strLt p.e1.event_id p.e2.event_id = true ∧
          inRange rS rE p.e1 = true ∧ inRange rS rE p.e2 = true ∧
          p.e1.start_date < p.e2.end_date ∧ p.e2.start_date < p.e1.end_date ∧
          p.overlap_duration_minutes =
            min p.e1.end_date p.e2.end_date - max p.e1.start_date p.e2.start_date) ∧
      (∀ a ∈ evs, ∀ b ∈ evs,
          strLt a.event_id b.event_id = true →
          inRange rS rE a = true → inRange rS rE b = true →
          a.start_date < b.end_date → b.start_date < a.end_date →
          (⟨a, b, min a.end_date b.end_date - max a.start_date b.start_date⟩ : OverlapPair) ∈
            findOverlappingEvents evs rS rE) ∧
      List.Sorted (fun p q : OverlapPair =>
          q.overlap_duration_minutes ≤ p.overlap_duration_minutes)
        (findOverlappingEvents evs rS rE)) ∧
    findOverlappingEvents [ovA, ovB] 0 1000 = [⟨ovA, ovB, 30⟩] := by
  constructor
  · intro evs rS rE
    refine ⟨?_, ?_, ?_, ?_⟩
    · intro hnd p hp q hq h1 h2
      rcases (overlap_row_mem evs rS rE p).mp hp with ⟨a, ha, b, hb, hc, rfl⟩
      rcases (overlap_row_mem evs rS rE q).mp hq with ⟨a', ha', b', hb', hc', rfl⟩
      have hae : a = a' := List.inj_on_of_nodup_map hnd ha ha' h1
      have hbe : b = b' := List.inj_on_of_nodup_map hnd hb hb' h2
      rw [hae, hbe]
    · intro p hp
      rcases (overlap_row_mem evs rS rE p).mp hp with ⟨a, ha, b, hb, hc, rfl⟩
      rw [Bool.and_eq_true, Bool.and_eq_true, Bool.and_eq_true] at hc
      have hov := hc.1.1.2
      unfold overlapCond at hov
      rw [Bool.and_eq_true] at hov
      exact ⟨ha, hb, hc.1.1.1, hc.1.2, hc.2,
        of_decide_eq_true hov.1, of_decide_eq_true hov.2, rfl⟩
    · intro a ha b hb hlt hra hrb hab hba
      refine (overlap_row_mem evs rS rE _).mpr ⟨a, ha, b, hb, ?_, rfl⟩
      have hov : overlapCond a b = true := by
        unfold overlapCond
        rw [Bool.and_eq_true]
        exact ⟨decide_eq_true hab, decide_eq_true hba⟩
      rw [Bool.and_eq_true, Bool.and_eq_true, Bool.and_eq_true]
      exact ⟨⟨⟨hlt, hov⟩, hra⟩, hrb⟩
    · haveI htot : IsTotal OverlapPair (fun p q : OverlapPair =>
          q.overlap_duration_minutes ≤ p.overlap_duration_minutes) :=
        ⟨fun a b => le_total _ _⟩
      haveI htr : IsTrans OverlapPair (fun p q : OverlapPair =>
          q.overlap_duration_minutes ≤ p.overlap_duration_minutes) :=
        ⟨fun a b c hab hbc => le_trans hbc hab⟩
      unfold findOverlappingEvents
      exact List.sorted_insertionSort _ _
  · decide
/-- Witness for C3: the completeness direction applied to the scenario
events A and B. -/
theorem c3_overlapping_events_witness :
    (⟨ovA, ovB, min ovA.end_date ovB.end_date - max ovA.start_date ovB.start_date⟩ :
      OverlapPair) ∈ findOverlappingEvents [ovA, ovB] 0 1000 :=
  (c3_overlapping_events.1 [ovA, ovB] 0 1000).2.2.1 ovA (by decide) ovB (by decide)
    (by decide) (by decide) (by decide) (by decide) (by decide)
theorem gapRow_exists_max (g : GapRow) (gs : List GapRow) :
    ∃ m ∈ g :: gs, ∀ h ∈ g :: gs, h.gap_duration_minutes ≤ m.gap_duration_minutes := by
  induction gs generalizing g with
  | nil =>
    refine ⟨g, by simp, ?_⟩
    intro h hh
    rw [List.mem_singleton] at hh
    rw [hh]
  | cons x xs ih =>
    rcases ih x with ⟨m, hm, hmax⟩
    by_cases hc : m.gap_duration_minutes ≤ g.gap_duration_minutes
    · refine ⟨g, List.mem_cons_self _ _, ?_⟩
      intro h hh
      rcases List.mem_cons.mp hh with rfl | hh2
      · exact le_refl _
      · exact le_trans (hmax h hh2) hc
    · refine ⟨m, List.mem_cons_of_mem _ hm, ?_⟩
      intro h hh
      rcases List.mem_cons.mp hh with rfl | hh2
      · exact le_of_lt (lt_of_not_le hc)
      · exact hmax h hh2

theorem maxGapRow_none_iff (gs : List GapRow) : maxGapRow gs = none ↔ gs = [] := by
  constructor
  · intro h
    rcases hg : gs with _ | ⟨g, rest⟩
    · rfl
    · exfalso
      rcases gapRow_exists_max g rest with ⟨m, hm, hmax⟩
      have hsome : (maxGapRow gs).isSome := by
        unfold maxGapRow
        rw [List.find?_isSome]
        refine ⟨m, by rw [hg]; exact hm, ?_⟩
        rw [List.all_eq_true]
        intro h2 hh2
        exact decide_eq_true (hmax h2 (by rw [← hg]; exact hh2))
      rw [h] at hsome
      simp at hsome
  · intro h
    rw [h]
    rfl

theorem maxGapRow_some (gs : List GapRow) (g : GapRow) (h : maxGapRow gs = some g) :
    g ∈ gs ∧ ∀ x ∈ gs, x.gap_duration_minutes ≤ g.gap_duration_minutes := by
  unfold maxGapRow at h
  refine ⟨List.mem_of_find?_eq_some h, ?_⟩
  have hp := List.find?_some h
  rw [List.all_eq_true] at hp
  intro x hx
  exact of_decide_eq_true (hp x hx)

theorem gapsOf_mem (evs : List Event) (rS rE : Int) (g : GapRow) :
    g ∈ gapsOf evs rS rE ↔
      ∃ p ∈ adjacentPairs (sortedByStart (evs.filter (inRange rS rE))),
        p.1.end_date < p.2.start_date ∧
        g = ⟨p.1.event_id, p.1.end_date, p.2.start_date,
             p.2.start_date - p.1.end_date⟩ := by
  unfold gapsOf
  rw [List.mem_filterMap]
  constructor
  · rintro ⟨p, hp, hf⟩
    by_cases hc : p.1.end_date < p.2.start_date
    · rw [if_pos hc, Option.some.injEq] at hf
      exact ⟨p, hp, hc, hf.symm⟩
    · rw [if_neg hc] at hf
      simp at hf
  · rintro ⟨p, hp, hc, rfl⟩
    refine ⟨p, hp, ?_⟩
    rw [if_pos hc]

theorem find?_id_nodup (evs : List Event) (a : Event)
    (hnd : (evs.map Event.event_id).Nodup) (ha : a ∈ evs) :
    evs.find? (fun e => e.event_id = a.event_id) = some a := by
  have hsome : (evs.find? (fun e => e.event_id = a.event_id)).isSome := by
    rw [List.find?_isSome]
    exact ⟨a, ha, by simp⟩
  rcases hx : evs.find? (fun e => e.event_id = a.event_id) with _ | x
  · rw [hx] at hsome
    simp at hsome
  · have hxm := List.mem_of_find?_eq_some hx
    have hxp := List.find?_some hx
    have hxa : x = a := List.inj_on_of_nodup_map hnd hxm ha (of_decide_eq_true hxp)
    rw [hxa] at hx
    exact hx
/-- C4 — confirmed.  `findTemporalGaps` over the events fully inside the
range, ordered by start, considers for each adjacent pair the gap
`nextStart − currentEnd`; it returns none when fewer than 2 events qualify
or no positive gap exists, and otherwise returns the single maximum positive
gap together with its bounding preceding and succeeding events.  For
A(09:00–10:00) and B(11:00–12:00) alone in range it returns
gap 10:00–11:00 of 60 minutes bounded by A and B. -/
theorem c4_temporal_gap :
    (∀ (evs : List Event) (rS rE : Int),
      ((evs.filter (inRange rS rE)).length < 2 → findTemporalGaps evs rS rE = none) ∧
      (findTemporalGaps evs rS rE = none ↔
        ∀ p ∈ adjacentPairs (sortedByStart (evs.filter (inRange rS rE))),
          p.2.start_date ≤ p.1.end_date) ∧
      ((evs.map Event.event_id).Nodup →
        ((evs.filter (inRange rS rE)).map Event.start_date).Nodup →
        ∀ g, findTemporalGaps evs rS rE = some g →
          ∃ p ∈ adjacentPairs (sortedByStart (evs.filter (inRange rS rE))),
            g.startOfGap = p.1.end_date ∧ g.endOfGap = p.2.start_date ∧
            g.durationMinutes = p.2.start_date - p.1.end_date ∧
            0 < g.durationMinutes ∧
            (∀ q ∈ adjacentPairs (sortedByStart (evs.filter (inRange rS rE))),
              q.2.start_date - q.1.end_date ≤ g.durationMinutes) ∧
            g.precedingEvent = some p.1 ∧ g.succeedingEvent = some p.2)) ∧
    findTemporalGaps [ovA, gapB] 0 1000 = some ⟨600, 660, 60, some ovA, some gapB⟩ := by
  constructor
  · intro evs rS rE
    refine ⟨?_, ⟨?_, ?_⟩, ?_⟩
    · intro hlen
      have hadj : adjacentPairs (sortedByStart (evs.filter (inRange rS rE))) = [] := by
        have hslen : (sortedByStart (evs.filter (inRange rS rE))).length < 2 := by
          unfold sortedByStart
          rw [List.length_insertionSort]
          exact hlen
        rcases hs : sortedByStart (evs.filter (inRange rS rE)) with _ | ⟨x, rest⟩
        · rfl
        · rcases hr : rest with _ | ⟨y, rest2⟩
          · rfl
          · rw [hs, hr] at hslen
            simp only [List.length_cons] at hslen
            omega
      have hgaps : gapsOf evs rS rE = [] := by
        unfold gapsOf
        rw [hadj]
        rfl
      unfold findTemporalGaps
      rw [hgaps]
      rfl
    · intro h p hp
      by_contra hcon
      push_neg at hcon
      have hg : (⟨p.1.event_id, p.1.end_date, p.2.start_date,
          p.2.start_date - p.1.end_date⟩ : GapRow) ∈ gapsOf evs rS rE :=
        (gapsOf_mem _ _ _ _).mpr ⟨p, hp, hcon, rfl⟩
      unfold findTemporalGaps at h
      rcases hm : maxGapRow (gapsOf evs rS rE) with _ | g0
      · rw [maxGapRow_none_iff] at hm
        rw [hm] at hg
        exact List.not_mem_nil _ hg
      · rw [hm] at h
        simp at h
    · intro hall
      have hgaps : gapsOf evs rS rE = [] := by
        unfold gapsOf
        rw [List.filterMap_eq_nil_iff]
        intro p hp
        rw [if_neg (not_lt.mpr (hall p hp))]
      unfold findTemporalGaps
      rw [hgaps]
      rfl
    · intro hnd hnds g hg
      unfold findTemporalGaps at hg
      rcases hm : maxGapRow (gapsOf evs rS rE) with _ | g0
      · rw [hm] at hg
        simp at hg
      · rw [hm] at hg
        rw [Option.some.injEq] at hg
        obtain ⟨hg0mem, hg0max⟩ := maxGapRow_some _ _ hm
        rcases (gapsOf_mem _ _ _ g0).mp hg0mem with ⟨p, hp, hlt, hg0⟩
        have hp1s : p.1 ∈ sortedByStart (evs.filter (inRange rS rE)) :=
          (List.of_mem_zip hp).1
        have hp2s : p.2 ∈ sortedByStart (evs.filter (inRange rS rE)) := by
          have := (List.of_mem_zip hp).2
          exact List.mem_of_mem_tail this
        have hp1f : p.1 ∈ evs.filter (inRange rS rE) := by
          unfold sortedByStart at hp1s
          exact (List.mem_insertionSort _).mp hp1s
        have hp2f : p.2 ∈ evs.filter (inRange rS rE) := by
          unfold sortedByStart at hp2s
          exact (List.mem_insertionSort _).mp hp2s
        have hp1e : p.1 ∈ evs := List.mem_of_mem_filter hp1f
        have hp2e : p.2 ∈ evs := List.mem_of_mem_filter hp2f
        have hp2r : inRange rS rE p.2 = true := List.of_mem_filter hp2f
        refine ⟨p, hp, ?_, ?_, ?_, ?_, ?_, ?_, ?_⟩
        · rw [← hg, hg0]
        · rw [← hg, hg0]
        · rw [← hg, hg0]
        · rw [← hg, hg0]
          dsimp only
          omega
        · intro q hq
          rw [← hg]
          dsimp only
          by_cases hql : q.1.end_date < q.2.start_date
          · have hqmem : (⟨q.1.event_id, q.1.end_date, q.2.start_date,
                q.2.start_date - q.1.end_date⟩ : GapRow) ∈ gapsOf evs rS rE :=
              (gapsOf_mem _ _ _ _).mpr ⟨q, hq, hql, rfl⟩
            have := hg0max _ hqmem
            dsimp only at this
            exact this
          · rw [hg0]
            dsimp only
            omega
        · rw [← hg, hg0]
          dsimp only
          exact find?_id_nodup evs p.1 hnd hp1e
        · rw [← hg, hg0]
          dsimp only
          have hpred : p.2 ∈ evs.filter fun e =>
              e.start_date = p.2.start_date && inRange rS rE e := by
            rw [List.mem_filter]
            refine ⟨hp2e, ?_⟩
            rw [Bool.and_eq_true]
            exact ⟨by simp, hp2r⟩
          rcases hfl : evs.filter (fun e =>
              e.start_date = p.2.start_date && inRange rS rE e) with _ | ⟨x, xs⟩
          · rw [hfl] at hpred
            exact absurd hpred (List.not_mem_nil _)
          · have hxmem : x ∈ evs.filter fun e =>
                e.start_date = p.2.start_date && inRange rS rE e := by
              rw [hfl]
              exact List.mem_cons_self _ _
            rw [List.mem_filter, Bool.and_eq_true] at hxmem
            have hxstart : x.start_date = p.2.start_date :=
              of_decide_eq_true hxmem.2.1
            have hxf : x ∈ evs.filter (inRange rS rE) :=
              List.mem_filter.mpr ⟨hxmem.1, hxmem.2.2⟩
            have hxp2 : x = p.2 := List.inj_on_of_nodup_map hnds hxf hp2f hxstart
            rw [hfl, List.head?_cons, hxp2]
  · decide
/-- Witness for C4: the max-gap characterisation applied to the scenario
events. -/
theorem c4_temporal_gap_witness :
    ∃ p ∈ adjacentPairs (sortedByStart ([ovA, gapB].filter (inRange 0 1000))),
      (⟨600, 660, 60, some ovA, some gapB⟩ : GapResult).startOfGap = p.1.end_date ∧
      (⟨600, 660, 60, some ovA, some gapB⟩ : GapResult).endOfGap = p.2.start_date ∧
      (⟨600, 660, 60, some ovA, some gapB⟩ : GapResult).durationMinutes =
        p.2.start_date - p.1.end_date ∧
      0 < (⟨600, 660, 60, some ovA, some gapB⟩ : GapResult).durationMinutes ∧
      (∀ q ∈ adjacentPairs (sortedByStart ([ovA, gapB].filter (inRange 0 1000))),
        q.2.start_date - q.1.end_date ≤
          (⟨600, 660, 60, some ovA, some gapB⟩ : GapResult).durationMinutes) ∧
      (⟨600, 660, 60, some ovA, some gapB⟩ : GapResult).precedingEvent = some p.1 ∧
      (⟨600, 660, 60, some ovA, some gapB⟩ : GapResult).succeedingEvent = some p.2 :=
  (c4_temporal_gap.1 [ovA, gapB] 0 1000).2.2 (by decide) (by decide)
    ⟨600, 660, 60, some ovA, some gapB⟩ (by decide)
theorem pathGen_inv (evs : List Event) (src : String)
    (hnd : (evs.map Event.event_id).Nodup) :
    ∀ n, ∀ r ∈ pathGen evs src n,
      r.ev ∈ evs ∧ r.path ≠ [] ∧ r.path.head? = some src ∧
      r.path.getLast? = some r.ev.event_id ∧ r.path.Nodup ∧ r.path.length ≤ 20 ∧
      List.Chain' (IdsAdjacent evs) r.path ∧
      r.total_duration = (r.path.map (durOfId evs)).sum := by
  intro n
  induction n with
  | zero =>
    intro r hr
    unfold pathGen at hr
    rcases List.mem_map.mp hr with ⟨e, he, rfl⟩
    rcases List.mem_filter.mp he with ⟨hee, hid⟩
    have hid2 : e.event_id = src := of_decide_eq_true hid
    refine ⟨hee, by simp, by simp [hid2], by simp, by simp, by simp, by simp, ?_⟩
    simp [durOfId, find?_id_nodup evs e hnd hee]
  | succ n ih =>
    intro r hr
    unfold pathGen at hr
    rcases List.mem_flatMap.mp hr with ⟨r0, hr0, hext⟩
    obtain ⟨hev0, hne0, hhead0, hlast0, hnd0, hlen0, hchain0, htot0⟩ := ih r0 hr0
    unfold extendPathRow at hext
    by_cases hl : r0.path.length < 20
    · rw [if_pos hl] at hext
      rcases List.mem_map.mp hext with ⟨he2, hmem2, rfl⟩
      rcases List.mem_filter.mp hmem2 with ⟨hee2, hcond⟩
      rw [Bool.and_eq_true] at hcond
      have hnotin : he2.event_id ∉ r0.path := by
        intro hcontra
        have := hcond.2
        rw [Bool.not_eq_true'] at this
        rw [← List.elem_iff] at hcontra
        rw [List.contains] at this
        rw [this] at hcontra
        exact Bool.false_ne_true hcontra
      refine ⟨hee2, by simp, ?_, ?_, ?_, ?_, ?_, ?_⟩
      · rcases List.exists_cons_of_ne_nil hne0 with ⟨a, t, hat⟩
        rw [hat]
        rw [hat] at hhead0
        simpa using hhead0
      · exact List.getLast?_concat _
      · rw [List.nodup_append]
        refine ⟨hnd0, List.nodup_singleton _, ?_⟩
        intro x hx hx2
        rw [List.mem_singleton] at hx2
        rw [hx2] at hx
        exact hnotin hx
      · rw [List.length_append, List.length_singleton]
        omega
      · apply List.Chain'.append hchain0 (List.chain'_singleton _)
        intro x hx y hy
        have hy2 : y = he2.event_id := by
          simp at hy
          exact hy.symm
        have hx2 : x = r0.ev.event_id := by
          rw [hlast0] at hx
          simp at hx
          exact hx.symm
        rw [hx2, hy2]
        exact ⟨r0.ev, hev0, he2, hee2, rfl, rfl, hcond.1⟩
      · rw [List.map_append, List.sum_append, ← htot0]
        simp [durOfId, find?_id_nodup evs he2 hnd hee2]
    · rw [if_neg hl] at hext
      exact absurd hext (List.not_mem_nil _)
/-- C5 — confirmed.  `findShortestPath` treats parent/child edges as
undirected, traverses with a visited set (the path itself) and the 20-node
hop bound, and accumulates the cumulative duration of the events along the
path: any returned path starts at the source, ends at the target, repeats no
node, has at most 20 nodes, steps only along parent/child edges, and its
total is the sum of the path events' durations — so the query returns none
whenever no such bounded path exists (unreachable target or bound
exceeded).  For the chain A→B→C, `findShortestPath(A,C)` returns the path
[A,B,C] with total duration 60+30+45 = 135, and an absent target yields
none. -/
theorem c5_influence_path :
    (∀ (evs : List Event) (sourceId targetId : String),
      (evs.map Event.event_id).Nodup →
      ∀ ids total, findShortestPath evs sourceId targetId = some (ids, total) →
        ids ≠ [] ∧ ids.head? = some sourceId ∧ ids.getLast? = some targetId ∧
        ids.Nodup ∧ ids.length ≤ 20 ∧
        List.Chain' (IdsAdjacent evs) ids ∧
        total = (ids.map (durOfId evs)).sum) ∧
    findShortestPath [chainA, chainB, chainC] "a" "c" = some (["a", "b", "c"], 135) ∧
    chainA.duration_minutes + chainB.duration_minutes + chainC.duration_minutes = 135 ∧
    findShortestPath [chainA, chainB, chainC] "a" "z" = none := by
  refine ⟨?_, by decide, by decide, by decide⟩
  intro evs sourceId targetId hnd ids total h
  unfold findShortestPath at h
  dsimp only at h
  rcases hsl : List.insertionSort
      (fun a b : PathRow => a.total_duration ≤ b.total_duration)
      ((allPathRows evs sourceId).filter fun r => r.ev.event_id = targetId)
    with _ | ⟨r, rest⟩
  all_goals rw [hsl] at h
  · exact absurd h (by simp)
  · rw [List.head?_cons] at h
    simp only [Option.map] at h
    rw [Option.some.injEq, Prod.mk.injEq] at h
    have hrmem : r ∈ (allPathRows evs sourceId).filter
        fun r => r.ev.event_id = targetId := by
      rw [← List.mem_insertionSort
        (fun a b : PathRow => a.total_duration ≤ b.total_duration), hsl]
      exact List.mem_cons_self _ _
    rcases List.mem_filter.mp hrmem with ⟨hall, htgt⟩
    have htgt2 : r.ev.event_id = targetId := of_decide_eq_true htgt
    unfold allPathRows at hall
    rcases List.mem_flatMap.mp hall with ⟨n, _, hgen⟩
    obtain ⟨_, hne, hhead, hlast, hndp, hlen, hchain, htot⟩ :=
      pathGen_inv evs sourceId hnd n r hgen
    rw [← h.1, ← h.2]
    exact ⟨hne, hhead, by rw [hlast, htgt2], hndp, hlen, hchain, htot⟩

/-- Witness for C5: the path characterisation applied to the A→B→C
chain. -/
theorem c5_influence_path_witness :
    (["a", "b", "c"] : List String) ≠ [] ∧
    (["a", "b", "c"] : List String).head? = some "a" ∧
    (["a", "b", "c"] : List String).getLast? = some "c" ∧
    (["a", "b", "c"] : List String).Nodup ∧
    (["a", "b", "c"] : List String).length ≤ 20 ∧
    List.Chain' (IdsAdjacent [chainA, chainB, chainC]) ["a", "b", "c"] ∧
    (135 : Int) = ((["a", "b", "c"] : List String).map
      (durOfId [chainA, chainB, chainC])).sum :=
  c5_influence_path.1 [chainA, chainB, chainC] "a" "c" (by decide)
    ["a", "b", "c"] 135 (by decide)
mutual

theorem hnode_size_eq : ∀ t : HNode, t.size = t.nodesList.length
  | .mk e cs => by
    rw [HNode.size, HNode.nodesList, List.length_cons, sizeList_eq cs, Nat.add_comm]

theorem sizeList_eq : ∀ cs : List HNode, sizeList cs = (nodesListList cs).length
  | [] => rfl
  | c :: cs => by
    rw [sizeList, nodesListList, List.length_append, hnode_size_eq c, sizeList_eq cs]

end

theorem get_append_left (l l2 : List Event) (i : Nat) (h : i < l.length)
    (h2 : i < (l ++ l2).length) : (l ++ l2).get ⟨i, h2⟩ = l.get ⟨i, h⟩ := by
  rw [List.get_eq_getElem, List.get_eq_getElem, List.getElem_append_left]

theorem parentEarlier_append (l : List Event) (x : Event)
    (h : ParentEarlier (l ++ [x])) : ParentEarlier l := by
  intro i hi
  have hlt : (i.val : Nat) < (l ++ [x]).length := by
    rw [List.length_append]
    omega
  rcases h ⟨i.val, hlt⟩ (by simpa using hi) with ⟨j, hj, hpar⟩
  have hjl : j.val < l.length := by
    simp only at hj
    omega
  refine ⟨⟨j.val, hjl⟩, by simpa using hj, ?_⟩
  rw [← get_append_left l [x] i.val i.isLt hlt, ← get_append_left l [x] j.val hjl j.isLt]
  exact hpar

theorem nodup_ids_append (l : List Event) (x : Event)
    (h : ((l ++ [x]).map Event.event_id).Nodup) : (l.map Event.event_id).Nodup := by
  rw [List.map_append] at h
  exact (List.nodup_append.mp h).1

theorem rootParentFree_append (l : List Event) (x : Event)
    (h : RootParentFree (l ++ [x])) : RootParentFree l := by
  rcases l with _ | ⟨r, rest⟩
  · trivial
  · intro p hp hmem
    refine h p hp ?_
    rw [List.map_append]
    exact List.mem_append_left _ hmem
theorem child_index_gt (l : List Event)
    (hnd : (l.map Event.event_id).Nodup) (hpe : ParentEarlier l)
    (hrpf : RootParentFree l) :
    ∀ (i : Fin l.length) (c : Event), c ∈ l →
      c.parent_event_id = some ((l.get i).event_id) →
      ∃ jc : Fin l.length, l.get jc = c ∧ i.val < jc.val := by
  intro i c hc hpar
  have hne : l ≠ [] := by
    intro hl
    rw [hl] at i
    exact absurd i.isLt (by simp)
  rcases List.mem_iff_get.mp hc with ⟨ic, hic⟩
  by_cases h0 : ic.val = 0
  · exfalso
    obtain ⟨r, rest, hl⟩ := List.exists_cons_of_ne_nil hne
    have hcr : c = r := by
      have hic0 : ic = ⟨0, by omega⟩ := Fin.ext h0
      rw [hic0] at hic
      rw [← hic]
      subst hl
      rfl
    have hhead : r.parent_event_id = some ((l.get i).event_id) := by
      rw [← hcr]
      exact hpar
    have hmem : (l.get i).event_id ∈ l.map Event.event_id :=
      List.mem_map_of_mem _ (List.get_mem l i.val i.isLt)
    subst hl
    exact hrpf _ hhead hmem
  · rcases hpe ic h0 with ⟨j, hj, hpj⟩
    rw [hic] at hpj
    have hid : (l.get i).event_id = (l.get j).event_id := by
      rw [hpar] at hpj
      exact Option.some.inj hpj
    have hev : l.get i = l.get j :=
      List.inj_on_of_nodup_map hnd (List.get_mem l i.val i.isLt)
        (List.get_mem l j.val j.isLt) hid
    have hij : i = j := ((List.Nodup.of_map _ hnd).get_inj_iff).mp hev
    refine ⟨ic, hic, ?_⟩
    rw [hij]
    exact hj

theorem snoc_get_last (l : List Event) (x : Event)
    (h : l.length < (l ++ [x]).length) : (l ++ [x]).get ⟨l.length, h⟩ = x := by
  rw [List.get_eq_getElem]
  exact List.getElem_concat_length l x l.length rfl h

theorem snoc_childless (l : List Event) (x : Event)
    (hnd : ((l ++ [x]).map Event.event_id).Nodup)
    (hpe : ParentEarlier (l ++ [x])) (hrpf : RootParentFree (l ++ [x])) :
    ∀ e ∈ l ++ [x], e.parent_event_id ≠ some x.event_id := by
  intro e he hpar
  have hlt : l.length < (l ++ [x]).length := by
    rw [List.length_append, List.length_singleton]
    omega
  have hx : (l ++ [x]).get ⟨l.length, hlt⟩ = x := snoc_get_last l x hlt
  have hpar2 : e.parent_event_id = some (((l ++ [x]).get ⟨l.length, hlt⟩).event_id) := by
    rw [hx]
    exact hpar
  rcases child_index_gt (l ++ [x]) hnd hpe hrpf ⟨l.length, hlt⟩ e he hpar2 with ⟨jc, _, hjc⟩
  have hjv : l.length < jc.val := hjc
  have hjlt : jc.val < l.length + 1 := by simpa using jc.isLt
  omega

theorem snoc_parent_mem (l : List Event) (x : Event) (hne : l ≠ [])
    (hpe : ParentEarlier (l ++ [x])) :
    ∃ p ∈ l, ∃ jp : Fin l.length, l.get jp = p ∧ x.parent_event_id = some p.event_id := by
  have hlt : l.length < (l ++ [x]).length := by
    rw [List.length_append, List.length_singleton]
    omega
  have hlen0 : l.length ≠ 0 := by
    intro h
    exact hne (List.length_eq_zero.mp h)
  rcases hpe ⟨l.length, hlt⟩ (by simpa using hlen0) with ⟨j, hj, hpj⟩
  have hjl : j.val < l.length := by
    simp only at hj
    omega
  rw [snoc_get_last l x hlt] at hpj
  have hg : (l ++ [x]).get ⟨j.val, j.isLt⟩ = l.get ⟨j.val, hjl⟩ :=
    get_append_left l [x] j.val hjl j.isLt
  refine ⟨l.get ⟨j.val, hjl⟩, List.get_mem l j.val hjl, ⟨j.val, hjl⟩, rfl, ?_⟩
  rw [← hg]
  exact hpj
theorem buildNode_fuel_stable (l : List Event)
    (hnd : (l.map Event.event_id).Nodup) (hpe : ParentEarlier l)
    (hrpf : RootParentFree l) :
    ∀ (n : Nat) (i : Fin l.length) (f1 f2 : Nat),
      l.length - i.val ≤ n → l.length - i.val ≤ f1 → l.length - i.val ≤ f2 →
      buildNode l (l.get i) f1 = buildNode l (l.get i) f2 := by
  intro n
  induction n with
  | zero =>
    intro i f1 f2 hn _ _
    exact absurd hn (by have := i.isLt; omega)
  | succ n ih =>
    intro i f1 f2 hn h1 h2
    have hpos : 1 ≤ l.length - i.val := by
      have := i.isLt
      omega
    rcases f1 with _ | f1
    · exact absurd h1 (by omega)
    rcases f2 with _ | f2
    · exact absurd h2 (by omega)
    rw [buildNode, buildNode]
    congr 1
    apply List.map_congr_left
    intro c hc
    rcases List.mem_filter.mp hc with ⟨hcl, hcp⟩
    have hcp2 : c.parent_event_id = some ((l.get i).event_id) := of_decide_eq_true hcp
    rcases child_index_gt l hnd hpe hrpf i c hcl hcp2 with ⟨jc, hjc, hji⟩
    rw [← hjc]
    have hjlt := jc.isLt
    exact ih jc f1 f2 (by omega) (by omega) (by omega)
theorem nodesListList_append (a b : List HNode) :
    nodesListList (a ++ b) = nodesListList a ++ nodesListList b := by
  induction a with
  | nil => rfl
  | cons c cs ih =>
    rw [List.cons_append, nodesListList, nodesListList, ih, List.append_assoc]

theorem buildNode_x_leaf (l : List Event) (x : Event)
    (hxc : ∀ e ∈ l ++ [x], e.parent_event_id ≠ some x.event_id) :
    ∀ f, buildNode (l ++ [x]) x f = .mk x [] := by
  intro f
  rcases f with _ | f
  · rfl
  · rw [buildNode]
    have hfl : ((l ++ [x]).filter fun c => c.parent_event_id = some x.event_id) = [] := by
      rw [List.filter_eq_nil_iff]
      intro e he
      simp only [decide_eq_true_eq]
      exact hxc e he
    rw [hfl]
    rfl

theorem nodesList_buildNode_succ (L : List Event) (e : Event) (f : Nat) :
    (buildNode L e (f + 1)).nodesList =
      e :: nodesListList ((L.filter fun c => c.parent_event_id = some e.event_id).map
        fun c => buildNode L c f) := rfl
theorem attachCount_append (x : Event) (a b : List Event) :
    attachCount x (a ++ b) = attachCount x a + attachCount x b := by
  simp [attachCount, List.countP_append]

theorem buildNode_snoc_nodes (l : List Event) (x : Event)
    (hnd : (l.map Event.event_id).Nodup) (hpe : ParentEarlier l)
    (hrpf : RootParentFree l)
    (hxc : ∀ e ∈ l ++ [x], e.parent_event_id ≠ some x.event_id) :
    ∀ (n : Nat) (i : Fin l.length) (f : Nat),
      l.length - i.val ≤ n → l.length - i.val ≤ f →
      (↑((buildNode (l ++ [x]) (l.get i) f).nodesList) : Multiset Event) =
        ↑((buildNode l (l.get i) f).nodesList) +
          Multiset.replicate
            (attachCount x ((buildNode l (l.get i) f).nodesList)) x := by
  intro n
  induction n with
  | zero =>
    intro i f hn _
    exact absurd hn (by have := i.isLt; omega)
  | succ n ih =>
    intro i f hn hf
    have hpos : 1 ≤ l.length - i.val := by
      have := i.isLt
      omega
    rcases f with _ | f
    · exact absurd hf (by omega)
    have aux : ∀ cs : List Event,
        (∀ c ∈ cs, ∃ jc : Fin l.length, l.get jc = c ∧ i.val < jc.val) →
        (↑(nodesListList (cs.map fun c => buildNode (l ++ [x]) c f)) : Multiset Event) =
          ↑(nodesListList (cs.map fun c => buildNode l c f)) +
            Multiset.replicate
              (attachCount x (nodesListList (cs.map fun c => buildNode l c f))) x := by
      intro cs hcs
      induction cs with
      | nil => simp [nodesListList, attachCount]
      | cons c cs ihcs =>
        rcases hcs c (List.mem_cons_self _ _) with ⟨jc, hjc, hji⟩
        have hrest := ihcs fun d hd => hcs d (List.mem_cons_of_mem _ hd)
        rw [List.map_cons, List.map_cons, nodesListList, nodesListList]
        have hhead : (↑((buildNode (l ++ [x]) c f).nodesList) : Multiset Event) =
            ↑((buildNode l c f).nodesList) +
              Multiset.replicate (attachCount x ((buildNode l c f).nodesList)) x := by
          rw [← hjc]
          have hjlt := jc.isLt
          exact ih jc f (by omega) (by omega)
        rw [← Multiset.coe_add, ← Multiset.coe_add, hhead, hrest, attachCount_append,
          Multiset.replicate_add]
        abel
    rw [nodesList_buildNode_succ, nodesList_buildNode_succ, List.filter_append,
      List.filter_singleton]
    have hch : ∀ c ∈ l.filter (fun c => c.parent_event_id = some ((l.get i)).event_id),
        ∃ jc : Fin l.length, l.get jc = c ∧ i.val < jc.val := by
      intro c hc
      rcases List.mem_filter.mp hc with ⟨hcl, hcp⟩
      exact child_index_gt l hnd hpe hrpf i c hcl (of_decide_eq_true hcp)
    have haux := aux _ hch
    by_cases hb : x.parent_event_id = some ((l.get i)).event_id
    · rw [decide_eq_true hb, Bool.cond_true, List.map_append, nodesListList_append]
      simp only [List.map_cons, List.map_nil]
      rw [buildNode_x_leaf l x hxc f]
      rw [show nodesListList [HNode.mk x []] = [x] from rfl]
      have hcnt : attachCount x (l.get i ::
          nodesListList ((l.filter fun c =>
            c.parent_event_id = some ((l.get i)).event_id).map fun c => buildNode l c f)) =
          attachCount x (nodesListList ((l.filter fun c =>
            c.parent_event_id = some ((l.get i)).event_id).map fun c => buildNode l c f)) + 1 := by
        simp [attachCount, List.countP_cons, hb]
      rw [hcnt]
      rw [← Multiset.cons_coe, ← Multiset.cons_coe, ← Multiset.coe_add, haux,
        Multiset.replicate_add, Multiset.replicate_one, Multiset.coe_singleton,
        ← Multiset.singleton_add, ← Multiset.singleton_add]
      abel
    · rw [decide_eq_false hb, Bool.cond_false, List.append_nil]
      have hcnt : attachCount x (l.get i ::
          nodesListList ((l.filter fun c =>
            c.parent_event_id = some ((l.get i)).event_id).map fun c => buildNode l c f)) =
          attachCount x (nodesListList ((l.filter fun c =>
            c.parent_event_id = some ((l.get i)).event_id).map fun c => buildNode l c f)) := by
        simp only [attachCount, List.countP_cons, decide_eq_true_eq, if_neg hb]
        omega
      rw [hcnt]
      rw [← Multiset.cons_coe, ← Multiset.cons_coe, haux, ← Multiset.singleton_add,
        ← Multiset.singleton_add]
      abel
theorem attachCount_eq_one (l : List Event) (hnd : (l.map Event.event_id).Nodup)
    (x p : Event) (hp : p ∈ l) (hpar : x.parent_event_id = some p.event_id) :
    attachCount x l = 1 := by
  unfold attachCount
  induction l with
  | nil => cases hp
  | cons a as ih =>
    rw [List.countP_cons]
    rw [List.map_cons, List.nodup_cons] at hnd
    rcases List.mem_cons.mp hp with rfl | hpmem
    · have htail :
          List.countP (fun ev => decide (x.parent_event_id = some ev.event_id)) as = 0 := by
        rw [List.countP_eq_zero]
        intro e he hc
        have he2 : x.parent_event_id = some e.event_id := of_decide_eq_true hc
        rw [hpar] at he2
        have hid : p.event_id = e.event_id := Option.some.inj he2
        have hmm : p.event_id ∈ as.map Event.event_id := by
          rw [hid]
          exact List.mem_map_of_mem _ he
        exact hnd.1 hmm
      rw [htail]
      simp [hpar]
    · have hhead : ¬ x.parent_event_id = some a.event_id := by
        rw [hpar]
        intro hcc
        have hid : p.event_id = a.event_id := Option.some.inj hcc
        have hmm : a.event_id ∈ as.map Event.event_id := by
          rw [← hid]
          exact List.mem_map_of_mem _ hpmem
        exact hnd.1 hmm
      rw [if_neg (by simpa using hhead), ih hnd.2 hpmem]

theorem timelineLevels_nil_frontier (evs : List Event) :
    ∀ fuel, timelineLevels evs [] fuel = [] := by
  intro fuel
  rcases fuel with _ | fuel
  · rfl
  · rw [timelineLevels]
    have hfl : (evs.filter fun e =>
        match e.parent_event_id with
        | some p => List.contains [] p
        | none => false) = [] := by
      rw [List.filter_eq_nil_iff]
      intro e _
      rcases e.parent_event_id with _ | p
      all_goals simp
    rw [hfl]

theorem buildHierarchy_nodes (evs : List Event) :
    evs ≠ [] → (evs.map Event.event_id).Nodup → ParentEarlier evs →
    RootParentFree evs →
    ∀ root rest, evs = root :: rest →
    (↑((buildNode evs root evs.length).nodesList) : Multiset Event) = ↑evs := by
  induction evs using List.reverseRecOn with
  | nil => intro h; exact absurd rfl h
  | append_singleton l x ihl =>
    intro _ hnd hpe hrpf root rest hcons
    have hxc := snoc_childless l x hnd hpe hrpf
    rcases l with _ | ⟨r, l2⟩
    · rw [List.nil_append] at hcons
      have hroot : root = x := (List.cons.injEq _ _ _ _).mp hcons.symm |>.1
      subst hroot
      rw [List.nil_append, show ([root] : List Event).length = 1 from rfl]
      rw [show buildNode [root] root 1 = buildNode ([] ++ [root]) root 1 from rfl]
      rw [buildNode_x_leaf [] root (by simpa using hxc) 1]
      rfl
    · have hroot : root = r := by
        rw [List.cons_append] at hcons
        exact ((List.cons.injEq _ _ _ _).mp hcons.symm).1
      subst hroot
      have hndl := nodup_ids_append (root :: l2) x hnd
      have hpel := parentEarlier_append (root :: l2) x hpe
      have hrpfl := rootParentFree_append (root :: l2) x hrpf
      have hlen : ((root :: l2) ++ [x]).length = (root :: l2).length + 1 := by
        rw [List.length_append, List.length_singleton]
      have hi0 : (0 : Nat) < (root :: l2).length := by simp
      have hget0 : (root :: l2).get ⟨0, hi0⟩ = root := rfl
      have hml := buildNode_snoc_nodes (root :: l2) x hndl hpel hrpfl hxc
        (root :: l2).length ⟨0, hi0⟩ ((root :: l2).length + 1) (by omega) (by omega)
      rw [hget0] at hml
      have hfs := buildNode_fuel_stable (root :: l2) hndl hpel hrpfl
        (root :: l2).length ⟨0, hi0⟩ ((root :: l2).length + 1) (root :: l2).length
        (by omega) (by omega) (by omega)
      rw [hget0] at hfs
      rw [hfs] at hml
      have hih := ihl (by simp) hndl hpel hrpfl root l2 rfl
      have hperm : List.Perm
          ((buildNode (root :: l2) root (root :: l2).length).nodesList) (root :: l2) :=
        Multiset.coe_eq_coe.mp hih
      rcases snoc_parent_mem (root :: l2) x (by simp) hpe with ⟨p, hpmem, _, _, hppar⟩
      have hcnt1 : attachCount x
          ((buildNode (root :: l2) root (root :: l2).length).nodesList) = 1 := by
        unfold attachCount
        rw [hperm.countP_eq]
        exact attachCount_eq_one (root :: l2) hndl x p hpmem hppar
      rw [hlen, hml, hih, hcnt1, Multiset.replicate_one]
      rw [← Multiset.coe_singleton, Multiset.coe_add]
/-- C6 counterexample — the claim as stated is false on the code: for the
two-root list `[chainA, strayZ]` (distinct ids, both parentless),
`buildHierarchy` returns a hierarchy with exactly 1 node, not
`len(events) = 2`: only the subtree of the first element is returned. -/
theorem c6_counterexample :
    (buildHierarchy [chainA, strayZ]).map HNode.size = some 1 ∧
    [chainA, strayZ].length = 2 :=
  ⟨by decide, rfl⟩

/-- C6 — corrected.  For every non-empty flat list with pairwise-distinct
ids whose first element's parent is not in the list and in which every later
element's parent occurs earlier in the list (the shape produced by the
level-ordered timeline hierarchy query), `buildHierarchy` indexes every node
by id, attaches each node to its parent's children list, and produces a
hierarchy with exactly `len(events)` nodes in which every non-root node's
parent is present in the same input set; it returns none on the empty list,
and the timeline hierarchy lookup returns none when the requested root id is
absent (its row list is empty). -/
theorem c6_build_hierarchy :
    (∀ evs : List Event, evs ≠ [] →
      (evs.map Event.event_id).Nodup → ParentEarlier evs → RootParentFree evs →
      (∃ t, buildHierarchy evs = some t ∧ t.size = evs.length) ∧
      (∀ i : Fin evs.length, i.val ≠ 0 →
        ∃ p ∈ evs, (evs.get i).parent_event_id = some p.event_id)) ∧
    buildHierarchy ([] : List Event) = none ∧
    (∀ (evs : List Event) (rootId : String),
      (∀ e ∈ evs, e.event_id ≠ rootId) → getTimelineHierarchy evs rootId = none) := by
  refine ⟨?_, rfl, ?_⟩
  · intro evs hne hnd hpe hrpf
    constructor
    · obtain ⟨root, rest, hcons⟩ := List.exists_cons_of_ne_nil hne
      have hbh : buildHierarchy evs = some (buildNode evs root evs.length) := by
        rw [hcons]
        rfl
      refine ⟨buildNode evs root evs.length, hbh, ?_⟩
      rw [hnode_size_eq]
      have hm := buildHierarchy_nodes evs hne hnd hpe hrpf root rest hcons
      exact (Multiset.coe_eq_coe.mp hm).length_eq
    · intro i hi
      rcases hpe i hi with ⟨j, _, hpar⟩
      exact ⟨evs.get j, List.get_mem _ _ _, hpar⟩
  · intro evs rootId hnone
    unfold getTimelineHierarchy timelineRows
    have hbase : (evs.filter fun e => e.event_id = rootId) = [] := by
      rw [List.filter_eq_nil_iff]
      intro e he
      simpa using hnone e he
    rw [hbase]
    show buildHierarchy
      ([] ++ timelineLevels evs (List.map Event.event_id []) evs.length) = none
    rw [show (List.map Event.event_id ([] : List Event)) = [] from rfl]
    rw [timelineLevels_nil_frontier]
    rfl

/-- Witness for C6: the amended statement applied to the three-event
chain. -/
theorem c6_build_hierarchy_witness :
    (∃ t, buildHierarchy [chainA, chainB, chainC] = some t ∧
        t.size = [chainA, chainB, chainC].length) ∧
    (∀ i : Fin ([chainA, chainB, chainC] : List Event).length, i.val ≠ 0 →
        ∃ p ∈ [chainA, chainB, chainC],
          (([chainA, chainB, chainC] : List Event).get i).parent_event_id =
            some p.event_id) :=
  c6_build_hierarchy.1 [chainA, chainB, chainC] (by simp) (by decide)
    (by unfold ParentEarlier; decide) (fun p hp => Option.noConfusion hp)
/-- Witness for C10: the gate decision evaluated on a one-line file whose
only line is malformed. -/
theorem c10_ingest_gate_witness :
    ((ingestCreatesJob ["bad line"] = false) ↔
      ∃ p ∈ List.enumFrom 1 ((["bad line"] : List String).take 10),
        isErr (serviceParseLine p.2 p.1) = true) ∧
    (validateFile ["bad line"]).errors =
      (validateFile ((["bad line"] : List String).take 10)).errors :=
  c10_ingest_gate ["bad line"]

end Chronologicon
